import Mathlib

/-!
# Verification of the Awgen voxel-world core

A shallow embedding of the voxel storage, chunk load-state tracking,
streaming scheduler and chunk mesher from the `awgen_world`,
`awgen_world_mesh` and `awgen_math` crates, together with proofs of the
specified properties.

Machine integers (`i32` coordinates) are modelled as `Int`; the Rust
arithmetic shift `>> n` on `i32` is floor division, which is `Int`
division by `2 ^ n` (Lean's `/` on `Int` is Euclidean division, equal to
floor division for a positive divisor), and the mask `& 15` is `% 16`.
-/

/-- Embedding of `glam::IVec3`: a 3-component signed integer vector. -/
structure IVec3 where
  x : Int
  y : Int
  z : Int
deriving DecidableEq

namespace IVec3

/-- Componentwise addition, as on `glam::IVec3`. -/
instance : Add IVec3 := ⟨fun a b => ⟨a.x + b.x, a.y + b.y, a.z + b.z⟩⟩

/-- Componentwise subtraction, as on `glam::IVec3`. -/
instance : Sub IVec3 := ⟨fun a b => ⟨a.x - b.x, a.y - b.y, a.z - b.z⟩⟩

/-- The vector with the given value in every lane (scalar broadcast). -/
def splat (n : Int) : IVec3 := ⟨n, n, n⟩

/-- Embedding of `IVec3::min`: componentwise minimum. -/
def cmin (a b : IVec3) : IVec3 := ⟨min a.x b.x, min a.y b.y, min a.z b.z⟩

/-- Embedding of `IVec3::max`: componentwise maximum. -/
def cmax (a b : IVec3) : IVec3 := ⟨max a.x b.x, max a.y b.y, max a.z b.z⟩

/-- Embedding of `v >> 4` on `IVec3` (arithmetic shift = floor division by 16). -/
def shr4 (v : IVec3) : IVec3 := ⟨v.x / 16, v.y / 16, v.z / 16⟩

/-- Embedding of `v >> 8` on `IVec3` (arithmetic shift = floor division by 256). -/
def shr8 (v : IVec3) : IVec3 := ⟨v.x / 256, v.y / 256, v.z / 256⟩

/-- Embedding of `v << 4` on `IVec3`: multiplication by 16. -/
def shl4 (v : IVec3) : IVec3 := ⟨v.x * 16, v.y * 16, v.z * 16⟩

/-- Embedding of `v & 15` on `IVec3`: componentwise `% 16` (in `[0, 16)`). -/
def and15 (v : IVec3) : IVec3 := ⟨v.x % 16, v.y % 16, v.z % 16⟩

theorem ext_iff' {a b : IVec3} : a = b ↔ a.x = b.x ∧ a.y = b.y ∧ a.z = b.z := by
  constructor
  · rintro rfl; exact ⟨rfl, rfl, rfl⟩
  · rcases a with ⟨ax, ay, az⟩
    rcases b with ⟨bx, by', bz⟩
    rintro ⟨h1, h2, h3⟩
    simp_all

end IVec3

/-- Componentwise order on `IVec3`, used to describe inclusive cuboids. -/
def IVec3.le (a b : IVec3) : Prop := a.x ≤ b.x ∧ a.y ≤ b.y ∧ a.z ≤ b.z

instance : LE IVec3 := ⟨IVec3.le⟩

instance (a b : IVec3) : Decidable (a ≤ b) :=
  inferInstanceAs (Decidable (a.x ≤ b.x ∧ a.y ≤ b.y ∧ a.z ≤ b.z))

theorem IVec3.le_def {a b : IVec3} : a ≤ b ↔ a.x ≤ b.x ∧ a.y ≤ b.y ∧ a.z ≤ b.z :=
  Iff.rfl

/-! ## Voxel world storage (`awgen_world/src/world.rs`)

A chunk's 4096-element block array and a region's 4096-slot chunk array
are modelled as total functions from the (always in-range) linear index;
in-place array writes become `Function.update`. -/

/-- Embedding of `VoxelChunk<BlockData>`: a dense 16×16×16 block array
indexed by `x*16*16 + y*16 + z` over local (masked) coordinates. -/
structure VoxelChunk (α : Type) where
  blocks : Nat → α

/-- Embedding of `VoxelChunk::default()`: all blocks hold the default value. -/
def VoxelChunk.mkDefault (α : Type) [Inhabited α] : VoxelChunk α :=
  ⟨fun _ => default⟩

/-- Embedding of `VoxelRegion<BlockData>`: a dense 16×16×16 array of
optional chunks plus the region's coordinates. -/
structure VoxelRegion (α : Type) where
  chunks : Nat → Option (VoxelChunk α)
  region_coords : IVec3

/-- Embedding of `VoxelRegion::new`: an empty region at the given coordinates. -/
def VoxelRegion.new (α : Type) (region_coords : IVec3) : VoxelRegion α :=
  ⟨fun _ => none, region_coords⟩

/-- Embedding of `VoxelWorld<BlockData>`: a list of regions. -/
structure VoxelWorld (α : Type) where
  regions : List (VoxelRegion α)

/-- Embedding of `VoxelWorld::default()`: the fresh world with no regions. -/
def VoxelWorld.mkDefault (α : Type) : VoxelWorld α := ⟨[]⟩

/-- The region coordinates of the block at `block_pos`: `block_pos >> 8`.
Shared local computation of `get_block_data` / `set_block_data`. -/
def blockRegionCoords (p : IVec3) : IVec3 := p.shr8

/-- The linear chunk index of the block at `block_pos`, computed as in the
source: `chunk_coords = (block_pos >> 4) & 15`, then
`chunk_coords.x*16*16 + chunk_coords.y*16 + chunk_coords.z` (cast to `usize`). -/
def blockChunkIndex (p : IVec3) : Nat :=
  ((p.shr4.and15).x * 16 * 16 + (p.shr4.and15).y * 16 + (p.shr4.and15).z).toNat

/-- The linear block index of the block at `block_pos`, computed as in the
source: `block_coords = block_pos & 15`, then
`block_coords.x*16*16 + block_coords.y*16 + block_coords.z` (cast to `usize`). -/
def blockBlockIndex (p : IVec3) : Nat :=
  ((p.and15).x * 16 * 16 + (p.and15).y * 16 + (p.and15).z).toNat

/-- The region/chunk/block lookup shared by `get_block_data` and
`get_block_region`: find the first region with the given coordinates, read
its optional chunk at `ci`, and read block `bi` from it, defaulting when
the region or chunk is absent. -/
def lookupBlock {α : Type} [Inhabited α] (l : List (VoxelRegion α)) (rc : IVec3)
    (ci bi : Nat) : α :=
  match (l.find? fun r => decide (r.region_coords = rc)).bind (fun r => r.chunks ci) with
  | some c => c.blocks bi
  | none => default

/-- Embedding of `VoxelWorld::get_block_data`. -/
def VoxelWorld.get_block_data {α : Type} [Inhabited α] (w : VoxelWorld α)
    (block_pos : IVec3) : α :=
  lookupBlock w.regions (blockRegionCoords block_pos) (blockChunkIndex block_pos)
    (blockBlockIndex block_pos)

/-- The body of `VoxelWorld::set_block_data`'s loop over `self.regions`:
the first region with matching coordinates receives the write (creating the
chunk filled with defaults first when absent); if no region matches, a new
region holding the freshly written chunk is pushed at the end. -/
def setInRegions {α : Type} [Inhabited α] (rc : IVec3) (ci bi : Nat) (data : α) :
    List (VoxelRegion α) → List (VoxelRegion α)
  | [] =>
    [{ chunks :=
         Function.update (VoxelRegion.new α rc).chunks ci
           (some { blocks := Function.update (VoxelChunk.mkDefault α).blocks bi data }),
       region_coords := rc }]
  | r :: rest =>
    if r.region_coords = rc then
      { r with
        chunks :=
          Function.update r.chunks ci
            (some
              (match r.chunks ci with
               | some c => { blocks := Function.update c.blocks bi data }
               | none => { blocks := Function.update (VoxelChunk.mkDefault α).blocks bi data })) } ::
        rest
    else r :: setInRegions rc ci bi data rest

/-- Embedding of `VoxelWorld::set_block_data`. -/
def VoxelWorld.set_block_data {α : Type} [Inhabited α] (w : VoxelWorld α)
    (block_pos : IVec3) (data : α) : VoxelWorld α :=
  ⟨setInRegions (blockRegionCoords block_pos) (blockChunkIndex block_pos)
      (blockBlockIndex block_pos) data w.regions⟩

/-! ## Lookup / write lemmas for the sparse region list -/

theorem lookupBlock_nil {α : Type} [Inhabited α] (rc : IVec3) (ci bi : Nat) :
    lookupBlock ([] : List (VoxelRegion α)) rc ci bi = default := rfl

theorem lookupBlock_cons {α : Type} [Inhabited α] (r : VoxelRegion α)
    (l : List (VoxelRegion α)) (rc : IVec3) (ci bi : Nat) :
    lookupBlock (r :: l) rc ci bi =
      if r.region_coords = rc then
        match r.chunks ci with
        | some c => c.blocks bi
        | none => default
      else lookupBlock l rc ci bi := by
  by_cases h : r.region_coords = rc <;> simp [lookupBlock, List.find?_cons, h]

theorem lookupBlock_setInRegions_same {α : Type} [Inhabited α] (rc : IVec3)
    (ci bi : Nat) (v : α) (l : List (VoxelRegion α)) :
    lookupBlock (setInRegions rc ci bi v l) rc ci bi = v := by
  induction l with
  | nil =>
    simp [setInRegions, lookupBlock, List.find?, Function.update_same]
  | cons r rest ih =>
    by_cases h : r.region_coords = rc
    · rw [setInRegions, if_pos h, lookupBlock_cons]
      rcases hc : r.chunks ci with _ | c <;>
        simp [h, hc, Function.update_same]
    · rw [setInRegions, if_neg h, lookupBlock_cons, if_neg h]
      exact ih

theorem lookupBlock_setInRegions_ne {α : Type} [Inhabited α] {rc rc' : IVec3}
    {ci ci' bi bi' : Nat} (v : α) (l : List (VoxelRegion α))
    (h : rc' ≠ rc ∨ ci' ≠ ci ∨ bi' ≠ bi) :
    lookupBlock (setInRegions rc ci bi v l) rc' ci' bi' = lookupBlock l rc' ci' bi' := by
  induction l with
  | nil =>
    rw [lookupBlock_nil, setInRegions, lookupBlock_cons]
    by_cases hrc : (rc : IVec3) = rc'
    · rw [if_pos hrc]
      by_cases hci : ci' = ci
      · subst hci
        have hbi : bi' ≠ bi := by subst hrc; tauto
        simp [Function.update_same, Function.update_noteq hbi, VoxelChunk.mkDefault]
      · simp [Function.update_noteq hci, VoxelRegion.new]
    · rw [if_neg hrc, lookupBlock_nil]
  | cons r rest ih =>
    by_cases hr : r.region_coords = rc
    · rw [setInRegions, if_pos hr, lookupBlock_cons, lookupBlock_cons]
      by_cases hrc' : r.region_coords = rc'
      · rw [if_pos hrc', if_pos hrc']
        have hne : ci' ≠ ci ∨ bi' ≠ bi := by
          rcases h with h | h
          · exact absurd (hrc' ▸ hr ▸ rfl : rc' = rc) h
          · tauto
        by_cases hci : ci' = ci
        · subst hci
          have hbi : bi' ≠ bi := by tauto
          rcases hc : r.chunks ci' with _ | c <;>
            simp [hc, Function.update_same, Function.update_noteq hbi,
              VoxelChunk.mkDefault]
        · simp [Function.update_noteq hci]
      · rw [if_neg hrc', if_neg hrc']
    · rw [setInRegions, if_neg hr, lookupBlock_cons, lookupBlock_cons]
      by_cases hrc' : r.region_coords = rc'
      · rw [if_pos hrc', if_pos hrc']
      · rw [if_neg hrc', if_neg hrc']
        exact ih

set_option maxHeartbeats 1000000 in
theorem blockKey_inj {p q : IVec3} (hrc : blockRegionCoords p = blockRegionCoords q)
    (hci : blockChunkIndex p = blockChunkIndex q)
    (hbi : blockBlockIndex p = blockBlockIndex q) : p = q := by
  rcases p with ⟨px, py, pz⟩
  rcases q with ⟨qx, qy, qz⟩
  simp only [blockRegionCoords, blockChunkIndex, blockBlockIndex, IVec3.shr8,
    IVec3.shr4, IVec3.and15, IVec3.mk.injEq] at hrc hci hbi ⊢
  omega

theorem get_set_same {α : Type} [Inhabited α] (w : VoxelWorld α) (p : IVec3) (v : α) :
    (w.set_block_data p v).get_block_data p = v :=
  lookupBlock_setInRegions_same _ _ _ _ _

theorem get_set_ne {α : Type} [Inhabited α] (w : VoxelWorld α) {p q : IVec3} (v : α)
    (h : p ≠ q) : (w.set_block_data p v).get_block_data q = w.get_block_data q := by
  refine lookupBlock_setInRegions_ne _ _ ?_
  by_contra hc
  push_neg at hc
  exact h (blockKey_inj hc.1 hc.2.1 hc.2.2).symm

theorem get_mkDefault {α : Type} [Inhabited α] (p : IVec3) :
    (VoxelWorld.mkDefault α).get_block_data p = default := rfl

/-- C2: for every voxel world state, block coordinate `p` (negative
components included) and payload value `v`, `set_block_data p v` followed by
`get_block_data p` returns `v`; and on a fresh world `get_block_data p`
returns the payload default for every `p`. -/
theorem voxelWorld_round_trip_and_default_fill {α : Type} [Inhabited α] :
    (∀ (w : VoxelWorld α) (p : IVec3) (v : α),
        (w.set_block_data p v).get_block_data p = v) ∧
      (∀ p : IVec3, (VoxelWorld.mkDefault α).get_block_data p = default) :=
  ⟨get_set_same, get_mkDefault⟩

/-- C10: for every voxel world state, payload value `v` and distinct block
coordinates `p ≠ q`, `set_block_data p v` leaves `get_block_data q`
unchanged, including when the write allocates a new chunk or region. -/
theorem voxelWorld_set_frame {α : Type} [Inhabited α] (w : VoxelWorld α)
    (p q : IVec3) (v : α) (h : p ≠ q) :
    (w.set_block_data p v).get_block_data q = w.get_block_data q :=
  get_set_ne w v h

theorem voxelWorld_set_frame_witness :
    (⟨0, 0, 0⟩ : IVec3) ≠ ⟨1, 0, 0⟩ ∧
      (((VoxelWorld.mkDefault Nat).set_block_data ⟨0, 0, 0⟩ 7).get_block_data ⟨1, 0, 0⟩ =
        (VoxelWorld.mkDefault Nat).get_block_data ⟨1, 0, 0⟩) :=
  ⟨by decide, voxelWorld_set_frame (VoxelWorld.mkDefault Nat) ⟨0, 0, 0⟩ ⟨1, 0, 0⟩ 7 (by decide)⟩

/-! ## Occlusion flags (`awgen_world_mesh/src/block_data.rs`) -/

/-- Embedding of the `BlockOcclusion` bitflags (a `u8`; only bits 0-6 are
defined flags). -/
structure BlockOcclusion where
  bits : Nat
deriving DecidableEq

namespace BlockOcclusion

/-- The `INNER` flag, bit `0b00000001`. -/
def INNER : BlockOcclusion := ⟨1⟩

/-- The `POS_X` flag, bit `0b00000010`. -/
def POS_X : BlockOcclusion := ⟨2⟩

/-- The `NEG_X` flag, bit `0b00000100`. -/
def NEG_X : BlockOcclusion := ⟨4⟩

/-- The `POS_Y` flag, bit `0b00001000`. -/
def POS_Y : BlockOcclusion := ⟨8⟩

/-- The `NEG_Y` flag, bit `0b00010000`. -/
def NEG_Y : BlockOcclusion := ⟨16⟩

/-- The `POS_Z` flag, bit `0b00100000`. -/
def POS_Z : BlockOcclusion := ⟨32⟩

/-- The `NEG_Z` flag, bit `0b01000000`. -/
def NEG_Z : BlockOcclusion := ⟨64⟩

/-- Embedding of `BlockOcclusion::empty()`. -/
def empty : BlockOcclusion := ⟨0⟩

/-- Embedding of `bitflags`' `contains`: all bits of `b` are present in `a`. -/
def contains (a b : BlockOcclusion) : Bool := a.bits &&& b.bits == b.bits

/-- Embedding of `value |= flag` (bitwise or). -/
def or (a b : BlockOcclusion) : BlockOcclusion := ⟨a.bits ||| b.bits⟩

/-- Embedding of `BlockOcclusion::opposite_face`: starts from `empty` and
transfers each present directional flag to its axis opposite, keeping
`INNER` unchanged. -/
def opposite_face (o : BlockOcclusion) : BlockOcclusion :=
  let v0 := empty
  let v1 := if o.contains INNER then v0.or INNER else v0
  let v2 := if o.contains POS_X then v1.or NEG_X else v1
  let v3 := if o.contains NEG_X then v2.or POS_X else v2
  let v4 := if o.contains POS_Y then v3.or NEG_Y else v3
  let v5 := if o.contains NEG_Y then v4.or POS_Y else v4
  let v6 := if o.contains POS_Z then v5.or NEG_Z else v5
  if o.contains NEG_Z then v6.or POS_Z else v6

end BlockOcclusion

/-- C9: for every combination `f` of the defined occlusion flags (any subset
of `INNER`, `POS_X`, `NEG_X`, `POS_Y`, `NEG_Y`, `POS_Z`, `NEG_Z`, i.e. any
`u8` below 128), `opposite_face` is an involution, keeps `INNER`, and swaps
the positive and negative flag of each axis independently. -/
theorem blockOcclusion_opposite_face_involution :
    ∀ f : Fin 128,
      (BlockOcclusion.opposite_face (BlockOcclusion.opposite_face ⟨f⟩)) = ⟨f⟩ ∧
        (BlockOcclusion.opposite_face ⟨f⟩).contains BlockOcclusion.INNER =
          BlockOcclusion.contains ⟨f⟩ BlockOcclusion.INNER ∧
        (BlockOcclusion.opposite_face ⟨f⟩).contains BlockOcclusion.NEG_X =
          BlockOcclusion.contains ⟨f⟩ BlockOcclusion.POS_X ∧
        (BlockOcclusion.opposite_face ⟨f⟩).contains BlockOcclusion.POS_X =
          BlockOcclusion.contains ⟨f⟩ BlockOcclusion.NEG_X ∧
        (BlockOcclusion.opposite_face ⟨f⟩).contains BlockOcclusion.NEG_Y =
          BlockOcclusion.contains ⟨f⟩ BlockOcclusion.POS_Y ∧
        (BlockOcclusion.opposite_face ⟨f⟩).contains BlockOcclusion.POS_Y =
          BlockOcclusion.contains ⟨f⟩ BlockOcclusion.NEG_Y ∧
        (BlockOcclusion.opposite_face ⟨f⟩).contains BlockOcclusion.NEG_Z =
          BlockOcclusion.contains ⟨f⟩ BlockOcclusion.POS_Z ∧
        (BlockOcclusion.opposite_face ⟨f⟩).contains BlockOcclusion.POS_Z =
          BlockOcclusion.contains ⟨f⟩ BlockOcclusion.NEG_Z := by
  decide

/-! ## Cuboid iteration and regions (`awgen_math`)

The files `awgen_math/src/iterators.rs` and `awgen_math/src/region.rs` are
declared by `awgen_math/src/lib.rs` but are not present in the sources, so
`CuboidIterator` and `Region` are modelled from the spec. -/

/-- The consecutive integers `base, base+1, ..., base+n-1`. -/
def intRange (base : Int) : Nat → List Int
  | 0 => []
  | n + 1 => base :: intRange (base + 1) n

/-- Modelled from the spec: `awgen_math::iterators::CuboidIterator` (source
file missing). Iterates an inclusive axis-aligned cuboid of integer points
in the fixed nested-axis order `x` outer, `y` middle, `z` inner (§5 and §8
of the spec); empty when some corner component is inverted. -/
def cuboidPoints (lo hi : IVec3) : List IVec3 :=
  (intRange lo.x (hi.x - lo.x + 1).toNat).flatMap fun x =>
    (intRange lo.y (hi.y - lo.y + 1).toNat).flatMap fun y =>
      (intRange lo.z (hi.z - lo.z + 1).toNat).map fun z => ⟨x, y, z⟩

/-- Modelled from the spec: `awgen_math::region::Region` (source file
missing), an axis-aligned cuboid described by its minimum corner and size,
with `point_to_index` the row-major linear index of a contained point
relative to the minimum corner (`x*256 + y*16 + z` for a 16-wide cube, §4.1). -/
structure Region where
  min : IVec3
  size : IVec3
deriving DecidableEq

namespace Region

/-- Modelled from the spec: the inclusive maximum corner of a region. -/
def max (r : Region) : IVec3 :=
  ⟨r.min.x + r.size.x - 1, r.min.y + r.size.y - 1, r.min.z + r.size.z - 1⟩

/-- Modelled from the spec: `Region::from_points`, the inclusive cuboid
spanned by two opposite corners (in either order). -/
def from_points (a b : IVec3) : Region :=
  { min := a.cmin b,
    size := ⟨(a.cmax b).x - (a.cmin b).x + 1, (a.cmax b).y - (a.cmin b).y + 1,
      (a.cmax b).z - (a.cmin b).z + 1⟩ }

/-- Modelled from the spec: `Region::from_size`, the cuboid with the given
minimum corner and size. -/
def from_size (pos size : IVec3) : Region := ⟨pos, size⟩

/-- Modelled from the spec: `Region::CHUNK`, the 16×16×16 cube at the origin. -/
def CHUNK : Region := ⟨⟨0, 0, 0⟩, ⟨16, 16, 16⟩⟩

/-- Modelled from the spec: `Region::point_to_index`, the row-major linear
index (`x * sizeY * sizeZ + y * sizeZ + z` over minimum-corner-relative
coordinates) of a point of the region, `none` for a point outside it. -/
def point_to_index (r : Region) (p : IVec3) : Option Nat :=
  if r.min ≤ p ∧ p ≤ r.max then
    some
      ((p.x - r.min.x) * r.size.y * r.size.z + (p.y - r.min.y) * r.size.z +
          (p.z - r.min.z)).toNat
  else none

/-- Modelled from the spec: `Region::iter`, iteration over all points of
the region in nested-axis order `x` outer, `y` middle, `z` inner. -/
def iter (r : Region) : List IVec3 := cuboidPoints r.min r.max

end Region

/-! ## Chunk load-state tracker (`awgen_world/src/populator.rs`) -/

/-- Embedding of `ChunkState`. -/
inductive ChunkState where
  | Unloaded
  | Loading
  | Loaded
  | Unloading
deriving DecidableEq

/-- Embedding of `ChunkState::default()`: `Unloaded`. -/
instance : Inhabited ChunkState := ⟨ChunkState.Unloaded⟩

/-- Embedding of `VoxelChunkStateRegion`: a dense 16×16×16 grid of chunk
states plus the region's coordinates. -/
structure VoxelChunkStateRegion where
  chunks : Nat → ChunkState
  region_coords : IVec3

/-- Embedding of `VoxelChunkStateRegion::new`: all 4096 entries `Unloaded`. -/
def VoxelChunkStateRegion.new (region_coords : IVec3) : VoxelChunkStateRegion :=
  ⟨fun _ => ChunkState.Unloaded, region_coords⟩

/-- Embedding of `region.chunks.iter().all(|c| *c == ChunkState::Unloaded)`
over the 4096-entry array. -/
def VoxelChunkStateRegion.allUnloaded (r : VoxelChunkStateRegion) : Bool :=
  (List.range 4096).all fun i => decide (r.chunks i = ChunkState.Unloaded)

/-- Embedding of `VoxelChunkStates`: a list of chunk state regions. -/
structure VoxelChunkStates where
  regions : List VoxelChunkStateRegion

/-- Embedding of `VoxelChunkStates::default()`: no regions. -/
def VoxelChunkStates.mkDefault : VoxelChunkStates := ⟨[]⟩

/-- The region coordinates of the chunk at `chunk_coords`: `chunk_coords >> 4`.
Shared local computation of `get_state` / `set_state`. -/
def chunkRegionCoords (c : IVec3) : IVec3 := c.shr4

/-- The linear index of the chunk within its region, computed as in the
source: `Region::CHUNK.point_to_index(chunk_coords & 15).unwrap()`. The
masked point always lies in `Region::CHUNK`, so the `unwrap` never panics;
the unreachable `none` branch is mapped to 0. -/
def chunkIndex (c : IVec3) : Nat := (Region.CHUNK.point_to_index c.and15).getD 0

theorem chunkIndex_eq (c : IVec3) :
    chunkIndex c = ((c.x % 16) * 16 * 16 + (c.y % 16) * 16 + c.z % 16).toNat := by
  have hin : Region.CHUNK.min ≤ c.and15 ∧ c.and15 ≤ Region.CHUNK.max := by
    constructor <;>
      simp only [Region.CHUNK, Region.max, IVec3.le_def, IVec3.and15] <;>
      refine ⟨?_, ?_, ?_⟩ <;> omega
  rw [chunkIndex, Region.point_to_index, if_pos hin]
  simp only [Region.CHUNK, IVec3.and15, Option.getD_some]
  norm_num

theorem chunkIndex_lt (c : IVec3) : chunkIndex c < 4096 := by
  rw [chunkIndex_eq]
  omega

theorem chunkKey_inj {c c' : IVec3} (hrc : chunkRegionCoords c = chunkRegionCoords c')
    (hci : chunkIndex c = chunkIndex c') : c = c' := by
  rw [chunkIndex_eq, chunkIndex_eq] at hci
  rcases c with ⟨cx, cy, cz⟩
  rcases c' with ⟨dx, dy, dz⟩
  simp only [chunkRegionCoords, IVec3.shr4, IVec3.mk.injEq] at hrc ⊢
  dsimp only at hci
  omega

/-- The region/entry lookup of `VoxelChunkStates::get_state`: the stored
state of the first region with matching coordinates, `Unloaded` when no
region matches. -/
def lookupState (l : List VoxelChunkStateRegion) (rc : IVec3) (i : Nat) : ChunkState :=
  match l.find? fun r => decide (r.region_coords = rc) with
  | some r => r.chunks i
  | none => ChunkState.Unloaded

/-- Embedding of `VoxelChunkStates::get_state`. -/
def VoxelChunkStates.get_state (s : VoxelChunkStates) (chunk_coords : IVec3) :
    ChunkState :=
  lookupState s.regions (chunkRegionCoords chunk_coords) (chunkIndex chunk_coords)

/-- The body of `VoxelChunkStates::set_state`'s search over `self.regions`:
the first region with matching coordinates receives the write and is then
removed if all of its entries are `Unloaded`; when no region matches and the
new state is not `Unloaded`, a fresh region holding it is pushed at the end. -/
def setStateInRegions (rc : IVec3) (i : Nat) (state : ChunkState) :
    List VoxelChunkStateRegion → List VoxelChunkStateRegion
  | [] =>
    if state ≠ ChunkState.Unloaded then
      [{ chunks := Function.update (VoxelChunkStateRegion.new rc).chunks i state,
         region_coords := rc }]
    else []
  | r :: rest =>
    if r.region_coords = rc then
      let r2 : VoxelChunkStateRegion :=
        { r with chunks := Function.update r.chunks i state }
      if r2.allUnloaded then rest else r2 :: rest
    else r :: setStateInRegions rc i state rest

/-- Embedding of `VoxelChunkStates::set_state`. -/
def VoxelChunkStates.set_state (s : VoxelChunkStates) (chunk_coords : IVec3)
    (state : ChunkState) : VoxelChunkStates :=
  ⟨setStateInRegions (chunkRegionCoords chunk_coords) (chunkIndex chunk_coords) state
      s.regions⟩

/-! ## Lemmas about the load-state tracker -/

theorem allUnloaded_iff (r : VoxelChunkStateRegion) :
    r.allUnloaded = true ↔ ∀ j < 4096, r.chunks j = ChunkState.Unloaded := by
  simp [VoxelChunkStateRegion.allUnloaded, List.all_eq_true, List.mem_range]

theorem lookupState_nil (rc : IVec3) (i : Nat) :
    lookupState [] rc i = ChunkState.Unloaded := rfl

theorem lookupState_cons (r : VoxelChunkStateRegion) (l : List VoxelChunkStateRegion)
    (rc : IVec3) (i : Nat) :
    lookupState (r :: l) rc i =
      if r.region_coords = rc then r.chunks i else lookupState l rc i := by
  by_cases h : r.region_coords = rc <;> simp [lookupState, List.find?_cons, h]

theorem lookupState_cons' (ch : Nat → ChunkState) (rc0 : IVec3)
    (l : List VoxelChunkStateRegion) (rc : IVec3) (i : Nat) :
    lookupState (⟨ch, rc0⟩ :: l) rc i =
      if rc0 = rc then ch i else lookupState l rc i :=
  lookupState_cons _ _ _ _

/-- The list of region coordinates of a tracker region list has no
duplicates: the well-formedness invariant used for `Unloaded` writes. -/
def stateCoordsNodup (l : List VoxelChunkStateRegion) : Prop :=
  (l.map fun r => r.region_coords).Nodup

theorem stateCoordsNodup_cons {r : VoxelChunkStateRegion}
    {l : List VoxelChunkStateRegion} (h : stateCoordsNodup (r :: l)) :
    (r.region_coords ∉ l.map fun t => t.region_coords) ∧ stateCoordsNodup l := by
  simp only [stateCoordsNodup, List.map_cons, List.nodup_cons] at h
  exact h

theorem lookupState_not_mem {l : List VoxelChunkStateRegion} {rc : IVec3} (i : Nat)
    (h : rc ∉ l.map fun r => r.region_coords) :
    lookupState l rc i = ChunkState.Unloaded := by
  induction l with
  | nil => rfl
  | cons r rest ih =>
    simp only [List.map_cons, List.mem_cons, not_or] at h
    rw [lookupState_cons, if_neg (fun he => h.1 he.symm), ih h.2]

theorem lookupState_setState_same (rc : IVec3) (i : Nat) (st : ChunkState)
    (l : List VoxelChunkStateRegion) (hi : i < 4096)
    (h : st ≠ ChunkState.Unloaded ∨ stateCoordsNodup l) :
    lookupState (setStateInRegions rc i st l) rc i = st := by
  induction l with
  | nil =>
    by_cases hst : st = ChunkState.Unloaded
    · subst hst
      simp [setStateInRegions, lookupState_nil]
    · rw [setStateInRegions, if_pos hst, lookupState_cons', if_pos rfl,
        Function.update_same]
  | cons r rest ih =>
    by_cases hr : r.region_coords = rc
    · rw [setStateInRegions, if_pos hr]
      by_cases hall :
          (⟨Function.update r.chunks i st, r.region_coords⟩ :
            VoxelChunkStateRegion).allUnloaded = true
      · rw [if_pos hall]
        have hst : st = ChunkState.Unloaded := by
          have h4 := (allUnloaded_iff _).mp hall i hi
          simpa [Function.update_same] using h4
        rcases h with h | h
        · exact absurd hst h
        · subst hst
          refine lookupState_not_mem i ?_
          exact hr ▸ (stateCoordsNodup_cons h).1
      · rw [if_neg hall, lookupState_cons', if_pos hr, Function.update_same]
    · rw [setStateInRegions, if_neg hr, lookupState_cons, if_neg hr]
      refine ih ?_
      rcases h with h | h
      · exact Or.inl h
      · exact Or.inr (stateCoordsNodup_cons h).2

theorem lookupState_setState_ne {rc rc' : IVec3} {i i' : Nat} (st : ChunkState)
    (l : List VoxelChunkStateRegion) (hi : i < 4096) (hi' : i' < 4096)
    (hk : rc' ≠ rc ∨ i' ≠ i)
    (h : st ≠ ChunkState.Unloaded ∨ stateCoordsNodup l) :
    lookupState (setStateInRegions rc i st l) rc' i' = lookupState l rc' i' := by
  induction l with
  | nil =>
    by_cases hst : st = ChunkState.Unloaded
    · subst hst
      simp [setStateInRegions]
    · rw [setStateInRegions, if_pos hst, lookupState_nil, lookupState_cons']
      by_cases hrc : (rc : IVec3) = rc'
      · rw [if_pos hrc]
        have hii : i' ≠ i := by tauto
        simp [Function.update_noteq hii, VoxelChunkStateRegion.new]
      · rw [if_neg hrc, lookupState_nil]
  | cons r rest ih =>
    by_cases hr : r.region_coords = rc
    · rw [setStateInRegions, if_pos hr]
      by_cases hall :
          (⟨Function.update r.chunks i st, r.region_coords⟩ :
            VoxelChunkStateRegion).allUnloaded = true
      · rw [if_pos hall, lookupState_cons]
        have hst : st = ChunkState.Unloaded := by
          have h4 := (allUnloaded_iff _).mp hall i hi
          simpa [Function.update_same] using h4
        by_cases hrc' : r.region_coords = rc'
        · rw [if_pos hrc']
          have hii : i' ≠ i := by
            rcases hk with hk | hk
            · exact absurd (hrc' ▸ hr ▸ rfl : rc' = rc) hk
            · exact hk
          have hun := (allUnloaded_iff _).mp hall i' hi'
          rw [show (⟨Function.update r.chunks i st, r.region_coords⟩ :
              VoxelChunkStateRegion).chunks = Function.update r.chunks i st from rfl,
            Function.update_noteq hii] at hun
          rw [hun]
          rcases h with h | h
          · exact absurd hst h
          · refine lookupState_not_mem i' ?_
            exact hrc' ▸ (stateCoordsNodup_cons h).1
        · rw [if_neg hrc']
      · rw [if_neg hall, lookupState_cons', lookupState_cons]
        by_cases hrc' : r.region_coords = rc'
        · rw [if_pos hrc', if_pos hrc']
          have hii : i' ≠ i := by
            rcases hk with hk | hk
            · exact absurd (hrc' ▸ hr ▸ rfl : rc' = rc) hk
            · exact hk
          rw [Function.update_noteq hii]
        · rw [if_neg hrc', if_neg hrc']
    · rw [setStateInRegions, if_neg hr, lookupState_cons, lookupState_cons]
      by_cases hrc' : r.region_coords = rc'
      · rw [if_pos hrc', if_pos hrc']
      · rw [if_neg hrc', if_neg hrc']
        refine ih ?_
        rcases h with h | h
        · exact Or.inl h
        · exact Or.inr (stateCoordsNodup_cons h).2

/-! ## Structural invariants preserved by writes -/

theorem blockChunkIndex_lt (p : IVec3) : blockChunkIndex p < 4096 := by
  rcases p with ⟨px, py, pz⟩
  simp only [blockChunkIndex, IVec3.shr4, IVec3.and15]
  omega

theorem coords_setStateInRegions_subset (rc : IVec3) (i : Nat) (st : ChunkState)
    (l : List VoxelChunkStateRegion) :
    ∀ x ∈ (setStateInRegions rc i st l).map fun r => r.region_coords,
      (x ∈ l.map fun r => r.region_coords) ∨ x = rc := by
  induction l with
  | nil =>
    by_cases hst : st = ChunkState.Unloaded <;>
      simp [setStateInRegions, hst]
  | cons r rest ih =>
    intro x hx
    by_cases hr : r.region_coords = rc
    · rw [setStateInRegions, if_pos hr] at hx
      by_cases hall :
          (⟨Function.update r.chunks i st, r.region_coords⟩ :
            VoxelChunkStateRegion).allUnloaded = true
      · rw [if_pos hall] at hx
        exact Or.inl (by simp only [List.map_cons, List.mem_cons]; exact Or.inr hx)
      · rw [if_neg hall] at hx
        simp only [List.map_cons, List.mem_cons] at hx ⊢
        exact Or.inl hx
    · rw [setStateInRegions, if_neg hr] at hx
      simp only [List.map_cons, List.mem_cons] at hx ⊢
      rcases hx with hx | hx
      · exact Or.inl (Or.inl hx)
      · rcases ih x hx with h | h
        · exact Or.inl (Or.inr h)
        · exact Or.inr h

theorem stateCoordsNodup_setStateInRegions (rc : IVec3) (i : Nat) (st : ChunkState)
    (l : List VoxelChunkStateRegion) (h : stateCoordsNodup l) :
    stateCoordsNodup (setStateInRegions rc i st l) := by
  induction l with
  | nil =>
    by_cases hst : st = ChunkState.Unloaded <;>
      simp [setStateInRegions, hst, stateCoordsNodup]
  | cons r rest ih =>
    rcases stateCoordsNodup_cons h with ⟨h1, h2⟩
    by_cases hr : r.region_coords = rc
    · rw [setStateInRegions, if_pos hr]
      by_cases hall :
          (⟨Function.update r.chunks i st, r.region_coords⟩ :
            VoxelChunkStateRegion).allUnloaded = true
      · rw [if_pos hall]
        exact h2
      · rw [if_neg hall]
        simp only [stateCoordsNodup, List.map_cons, List.nodup_cons]
        exact ⟨h1, h2⟩
    · rw [setStateInRegions, if_neg hr]
      simp only [stateCoordsNodup, List.map_cons, List.nodup_cons]
      refine ⟨fun hm => ?_, ih h2⟩
      rcases coords_setStateInRegions_subset rc i st rest _ hm with hm | hm
      · exact h1 hm
      · exact hr hm

theorem hasLiveEntry_setStateInRegions (rc : IVec3) (i : Nat) (st : ChunkState)
    (l : List VoxelChunkStateRegion) (hi : i < 4096)
    (h : ∀ r ∈ l, ∃ j < 4096, r.chunks j ≠ ChunkState.Unloaded) :
    ∀ r ∈ setStateInRegions rc i st l, ∃ j < 4096, r.chunks j ≠ ChunkState.Unloaded := by
  induction l with
  | nil =>
    by_cases hst : st = ChunkState.Unloaded
    · simp [setStateInRegions, hst]
    · rw [setStateInRegions, if_pos hst]
      intro r hr
      rcases List.mem_singleton.mp hr with rfl
      exact ⟨i, hi, by simp [Function.update_same, hst]⟩
  | cons r rest ih =>
    intro t ht
    by_cases hr : r.region_coords = rc
    · rw [setStateInRegions, if_pos hr] at ht
      by_cases hall :
          (⟨Function.update r.chunks i st, r.region_coords⟩ :
            VoxelChunkStateRegion).allUnloaded = true
      · rw [if_pos hall] at ht
        exact h t (List.mem_cons_of_mem _ ht)
      · rw [if_neg hall] at ht
        rcases List.mem_cons.mp ht with rfl | ht
        · have : ¬∀ j < 4096,
              (⟨Function.update r.chunks i st, r.region_coords⟩ :
                VoxelChunkStateRegion).chunks j = ChunkState.Unloaded :=
            fun hc => hall ((allUnloaded_iff _).mpr hc)
          push_neg at this
          exact this
        · exact h t (List.mem_cons_of_mem _ ht)
    · rw [setStateInRegions, if_neg hr] at ht
      rcases List.mem_cons.mp ht with rfl | ht
      · exact h t (List.mem_cons_self _ _)
      · exact ih (fun u hu => h u (List.mem_cons_of_mem _ hu)) t ht

/-- Nodup region coordinates for the voxel world's region list. -/
def worldCoordsNodup {α : Type} (l : List (VoxelRegion α)) : Prop :=
  (l.map fun r => r.region_coords).Nodup

theorem coords_setInRegions_subset {α : Type} [Inhabited α] (rc : IVec3)
    (ci bi : Nat) (v : α) (l : List (VoxelRegion α)) :
    ∀ x ∈ (setInRegions rc ci bi v l).map fun r => r.region_coords,
      (x ∈ l.map fun r => r.region_coords) ∨ x = rc := by
  induction l with
  | nil => simp [setInRegions]
  | cons r rest ih =>
    intro x hx
    by_cases hr : r.region_coords = rc
    · rw [setInRegions, if_pos hr] at hx
      simp only [List.map_cons, List.mem_cons] at hx ⊢
      exact Or.inl hx
    · rw [setInRegions, if_neg hr] at hx
      simp only [List.map_cons, List.mem_cons] at hx ⊢
      rcases hx with hx | hx
      · exact Or.inl (Or.inl hx)
      · rcases ih x hx with h | h
        · exact Or.inl (Or.inr h)
        · exact Or.inr h

theorem worldCoordsNodup_setInRegions {α : Type} [Inhabited α] (rc : IVec3)
    (ci bi : Nat) (v : α) (l : List (VoxelRegion α)) (h : worldCoordsNodup l) :
    worldCoordsNodup (setInRegions rc ci bi v l) := by
  induction l with
  | nil => simp [setInRegions, worldCoordsNodup]
  | cons r rest ih =>
    simp only [worldCoordsNodup, List.map_cons, List.nodup_cons] at h
    by_cases hr : r.region_coords = rc
    · rw [setInRegions, if_pos hr]
      simp only [worldCoordsNodup, List.map_cons, List.nodup_cons]
      exact h
    · rw [setInRegions, if_neg hr]
      simp only [worldCoordsNodup, List.map_cons, List.nodup_cons]
      refine ⟨fun hm => ?_, ih h.2⟩
      rcases coords_setInRegions_subset rc ci bi v rest _ hm with hm | hm
      · exact h.1 hm
      · exact hr hm

theorem hasChunk_setInRegions {α : Type} [Inhabited α] (rc : IVec3) (ci bi : Nat)
    (v : α) (l : List (VoxelRegion α)) (hci : ci < 4096)
    (h : ∀ r ∈ l, ∃ j < 4096, (r.chunks j).isSome) :
    ∀ r ∈ setInRegions rc ci bi v l, ∃ j < 4096, (r.chunks j).isSome := by
  induction l with
  | nil =>
    intro r hr
    rcases List.mem_singleton.mp hr with rfl
    exact ⟨ci, hci, by simp [Function.update_same]⟩
  | cons r rest ih =>
    intro t ht
    by_cases hr : r.region_coords = rc
    · rw [setInRegions, if_pos hr] at ht
      rcases List.mem_cons.mp ht with rfl | ht
      · exact ⟨ci, hci, by simp [Function.update_same]⟩
      · exact h t (List.mem_cons_of_mem _ ht)
    · rw [setInRegions, if_neg hr] at ht
      rcases List.mem_cons.mp ht with rfl | ht
      · exact h t (List.mem_cons_self _ _)
      · exact ih (fun u hu => h u (List.mem_cons_of_mem _ hu)) t ht

/-! ## Sequences of operations -/

/-- A sequence of `set_block_data` calls applied in order. -/
def applyBlocks {α : Type} [Inhabited α] (ops : List (IVec3 × α)) (w : VoxelWorld α) :
    VoxelWorld α :=
  ops.foldl (fun w op => w.set_block_data op.1 op.2) w

/-- A sequence of `set_state` calls applied in order. -/
def applyStates (ops : List (IVec3 × ChunkState)) (s : VoxelChunkStates) :
    VoxelChunkStates :=
  ops.foldl (fun s op => s.set_state op.1 op.2) s

theorem applyBlocks_nil {α : Type} [Inhabited α] (w : VoxelWorld α) :
    applyBlocks [] w = w := rfl

theorem applyBlocks_cons {α : Type} [Inhabited α] (op : IVec3 × α)
    (ops : List (IVec3 × α)) (w : VoxelWorld α) :
    applyBlocks (op :: ops) w = applyBlocks ops (w.set_block_data op.1 op.2) := rfl

theorem applyStates_nil (s : VoxelChunkStates) : applyStates [] s = s := rfl

theorem applyStates_cons (op : IVec3 × ChunkState) (ops : List (IVec3 × ChunkState))
    (s : VoxelChunkStates) :
    applyStates (op :: ops) s = applyStates ops (s.set_state op.1 op.2) := rfl

theorem worldInv_applyBlocks {α : Type} [Inhabited α] (ops : List (IVec3 × α))
    (w : VoxelWorld α) (h1 : worldCoordsNodup w.regions)
    (h2 : ∀ r ∈ w.regions, ∃ j < 4096, (r.chunks j).isSome) :
    worldCoordsNodup (applyBlocks ops w).regions ∧
      ∀ r ∈ (applyBlocks ops w).regions, ∃ j < 4096, (r.chunks j).isSome := by
  induction ops generalizing w with
  | nil => exact ⟨h1, h2⟩
  | cons op ops ih =>
    rw [applyBlocks_cons]
    exact ih _ (worldCoordsNodup_setInRegions _ _ _ _ _ h1)
      (hasChunk_setInRegions _ _ _ _ _ (blockChunkIndex_lt op.1) h2)

theorem trackerInv_applyStates (ops : List (IVec3 × ChunkState))
    (s : VoxelChunkStates) (h1 : stateCoordsNodup s.regions)
    (h2 : ∀ r ∈ s.regions, ∃ j < 4096, r.chunks j ≠ ChunkState.Unloaded) :
    stateCoordsNodup (applyStates ops s).regions ∧
      ∀ r ∈ (applyStates ops s).regions, ∃ j < 4096, r.chunks j ≠ ChunkState.Unloaded := by
  induction ops generalizing s with
  | nil => exact ⟨h1, h2⟩
  | cons op ops ih =>
    rw [applyStates_cons]
    exact ih _ (stateCoordsNodup_setStateInRegions _ _ _ _ h1)
      (hasLiveEntry_setStateInRegions _ _ _ _ (chunkIndex_lt op.1) h2)

/-- C8: after any sequence of `set_block_data` operations on a fresh voxel
world and any sequence of `set_state` operations on a fresh tracker, each
structure keeps at most one region per region coordinate, every voxel-world
region owns at least one chunk, and no load-state region has all 4096
entries `Unloaded`. -/
theorem storage_invariants_hold {α : Type} [Inhabited α]
    (ops : List (IVec3 × α)) (ops2 : List (IVec3 × ChunkState)) :
    worldCoordsNodup (applyBlocks ops (VoxelWorld.mkDefault α)).regions ∧
      (∀ r ∈ (applyBlocks ops (VoxelWorld.mkDefault α)).regions,
        ∃ j < 4096, (r.chunks j).isSome) ∧
      stateCoordsNodup (applyStates ops2 VoxelChunkStates.mkDefault).regions ∧
      ∀ r ∈ (applyStates ops2 VoxelChunkStates.mkDefault).regions,
        ∃ j < 4096, r.chunks j ≠ ChunkState.Unloaded := by
  have hw := worldInv_applyBlocks ops (VoxelWorld.mkDefault α)
    (by simp [worldCoordsNodup, VoxelWorld.mkDefault]) (by simp [VoxelWorld.mkDefault])
  have hs := trackerInv_applyStates ops2 VoxelChunkStates.mkDefault
    (by simp [stateCoordsNodup, VoxelChunkStates.mkDefault])
    (by simp [VoxelChunkStates.mkDefault])
  exact ⟨hw.1, hw.2, hs.1, hs.2⟩

/-! ## Tracker get/set correctness (claim C7) -/

theorem get_state_set_state_same (s : VoxelChunkStates) (c : IVec3) (st : ChunkState)
    (h : st ≠ ChunkState.Unloaded ∨ stateCoordsNodup s.regions) :
    (s.set_state c st).get_state c = st :=
  lookupState_setState_same _ _ _ _ (chunkIndex_lt c) h

theorem get_state_set_state_ne (s : VoxelChunkStates) {c c' : IVec3} (st : ChunkState)
    (hne : c' ≠ c) (h : st ≠ ChunkState.Unloaded ∨ stateCoordsNodup s.regions) :
    (s.set_state c st).get_state c' = s.get_state c' := by
  refine lookupState_setState_ne st _ (chunkIndex_lt c) (chunkIndex_lt c') ?_ h
  by_contra hc
  push_neg at hc
  exact hne (chunkKey_inj hc.1 hc.2)

/-- The last state set for chunk `c` by a list of `(coords, state)` operations,
if any: later operations take precedence. -/
def lastSet? (c : IVec3) : List (IVec3 × ChunkState) → Option ChunkState
  | [] => none
  | op :: rest =>
    match lastSet? c rest with
    | some st => some st
    | none => if op.1 = c then some op.2 else none

theorem get_state_applyStates (ops : List (IVec3 × ChunkState)) (s : VoxelChunkStates)
    (c : IVec3) (hwf : stateCoordsNodup s.regions) :
    (applyStates ops s).get_state c = (lastSet? c ops).getD (s.get_state c) := by
  induction ops generalizing s with
  | nil => rfl
  | cons op ops ih =>
    rw [applyStates_cons, ih (s.set_state op.1 op.2)
      (stateCoordsNodup_setStateInRegions _ _ _ _ hwf)]
    by_cases hop : op.1 = c
    · subst hop
      rw [get_state_set_state_same _ _ _ (Or.inr hwf)]
      rcases hl : lastSet? op.1 ops with _ | st <;>
        simp [lastSet?, hl]
    · rw [get_state_set_state_ne _ _ (fun he => hop he.symm) (Or.inr hwf)]
      rcases hl : lastSet? c ops with _ | st <;>
        simp [lastSet?, hl, hop]

/-- The region with the given coordinates is present in the tracker. -/
def VoxelChunkStates.regionPresent (s : VoxelChunkStates) (rc : IVec3) : Prop :=
  rc ∈ s.regions.map fun r => r.region_coords

theorem exists_chunk_with_index (rc : IVec3) (j : Nat) (hj : j < 4096) :
    ∃ c', chunkRegionCoords c' = rc ∧ chunkIndex c' = j := by
  refine ⟨⟨rc.x * 16 + (j / 256 : Nat), rc.y * 16 + (j / 16 % 16 : Nat),
    rc.z * 16 + (j % 16 : Nat)⟩, ?_, ?_⟩
  · rcases rc with ⟨rx, ry, rz⟩
    simp only [chunkRegionCoords, IVec3.shr4, IVec3.mk.injEq]
    refine ⟨?_, ?_, ?_⟩ <;> omega
  · rw [chunkIndex_eq]
    dsimp only
    omega

theorem not_regionPresent_setState_unloaded (rc : IVec3) (i : Nat)
    (l : List VoxelChunkStateRegion) (hwf : stateCoordsNodup l)
    (hall : ∀ j < 4096, j ≠ i → lookupState l rc j = ChunkState.Unloaded) :
    rc ∉ (setStateInRegions rc i ChunkState.Unloaded l).map fun r => r.region_coords := by
  induction l with
  | nil => simp [setStateInRegions]
  | cons r rest ih =>
    rcases stateCoordsNodup_cons hwf with ⟨h1, h2⟩
    by_cases hr : r.region_coords = rc
    · rw [setStateInRegions, if_pos hr]
      have hallb :
          (⟨Function.update r.chunks i ChunkState.Unloaded, r.region_coords⟩ :
            VoxelChunkStateRegion).allUnloaded = true := by
        refine (allUnloaded_iff _).mpr fun j hj => ?_
        by_cases hij : j = i
        · subst hij
          exact Function.update_same _ _ _
        · have := hall j hj hij
          rw [lookupState_cons, if_pos hr] at this
          simpa [Function.update_noteq hij] using this
      rw [if_pos hallb]
      exact hr ▸ h1
    · rw [setStateInRegions, if_neg hr]
      simp only [List.map_cons, List.mem_cons, not_or]
      refine ⟨fun he => hr he.symm, ?_⟩
      refine ih h2 fun j hj hij => ?_
      have := hall j hj hij
      rwa [lookupState_cons, if_neg hr] at this

theorem regionPresent_setState_live (rc : IVec3) (i : Nat) (st : ChunkState)
    (l : List VoxelChunkStateRegion) (hst : st ≠ ChunkState.Unloaded) (hi : i < 4096) :
    rc ∈ (setStateInRegions rc i st l).map fun r => r.region_coords := by
  induction l with
  | nil =>
    rw [setStateInRegions, if_pos hst]
    simp
  | cons r rest ih =>
    by_cases hr : r.region_coords = rc
    · rw [setStateInRegions, if_pos hr]
      by_cases hall :
          (⟨Function.update r.chunks i st, r.region_coords⟩ :
            VoxelChunkStateRegion).allUnloaded = true
      · exact absurd (by simpa [Function.update_same] using
          (allUnloaded_iff _).mp hall i hi) hst
      · rw [if_neg hall]
        simp [hr]
    · rw [setStateInRegions, if_neg hr]
      simp only [List.map_cons, List.mem_cons]
      exact Or.inr ih

/-- C7: on a fresh tracker, after any sequence of `set_state` operations,
`get_state c` returns the most recently set state for `c` (`Unloaded` when
never set); additionally, from any such tracker state, `set_state c Unloaded`
makes `get_state c` return `Unloaded` and prunes the owning region once all
its other entries are `Unloaded`, while `set_state` of any other state stores
it with the owning region allocated. -/
theorem tracker_get_state_reports_last_set (ops : List (IVec3 × ChunkState))
    (c : IVec3) (st : ChunkState) :
    (applyStates ops VoxelChunkStates.mkDefault).get_state c =
        (lastSet? c ops).getD ChunkState.Unloaded ∧
      ((applyStates ops VoxelChunkStates.mkDefault).set_state c
          ChunkState.Unloaded).get_state c = ChunkState.Unloaded ∧
      ((∀ c', chunkRegionCoords c' = chunkRegionCoords c → c' ≠ c →
          (applyStates ops VoxelChunkStates.mkDefault).get_state c' =
            ChunkState.Unloaded) →
        ¬((applyStates ops VoxelChunkStates.mkDefault).set_state c
            ChunkState.Unloaded).regionPresent (chunkRegionCoords c)) ∧
      (st ≠ ChunkState.Unloaded →
        ((applyStates ops VoxelChunkStates.mkDefault).set_state c st).get_state c = st ∧
          ((applyStates ops VoxelChunkStates.mkDefault).set_state c
            st).regionPresent (chunkRegionCoords c)) := by
  have hwf : stateCoordsNodup (applyStates ops VoxelChunkStates.mkDefault).regions :=
    (trackerInv_applyStates ops VoxelChunkStates.mkDefault
      (by simp [stateCoordsNodup, VoxelChunkStates.mkDefault])
      (by simp [VoxelChunkStates.mkDefault])).1
  refine ⟨?_, ?_, ?_, ?_⟩
  · rw [get_state_applyStates ops VoxelChunkStates.mkDefault c
      (by simp [stateCoordsNodup, VoxelChunkStates.mkDefault])]
    rfl
  · exact get_state_set_state_same _ _ _ (Or.inr hwf)
  · intro hsib
    refine not_regionPresent_setState_unloaded _ _ _ hwf fun j hj hij => ?_
    rcases exists_chunk_with_index (chunkRegionCoords c) j hj with ⟨c', hc1, hc2⟩
    have hcc : c' ≠ c := fun he => hij (he ▸ hc2.symm ▸ rfl)
    have := hsib c' hc1 hcc
    rwa [VoxelChunkStates.get_state, hc1, hc2] at this
  · intro hst
    exact ⟨get_state_set_state_same _ _ _ (Or.inl hst),
      regionPresent_setState_live _ _ _ _ hst (chunkIndex_lt c)⟩

theorem tracker_get_state_reports_last_set_witness :
    ((applyStates [(⟨0, 0, 0⟩, ChunkState.Loaded)]
        VoxelChunkStates.mkDefault).get_state ⟨0, 0, 0⟩ =
      (lastSet? ⟨0, 0, 0⟩ [(⟨0, 0, 0⟩, ChunkState.Loaded)]).getD ChunkState.Unloaded) ∧
      ((∀ c', chunkRegionCoords c' = chunkRegionCoords ⟨0, 0, 0⟩ → c' ≠ ⟨0, 0, 0⟩ →
          (applyStates [(⟨0, 0, 0⟩, ChunkState.Loaded)]
            VoxelChunkStates.mkDefault).get_state c' = ChunkState.Unloaded) →
        ¬((applyStates [(⟨0, 0, 0⟩, ChunkState.Loaded)]
            VoxelChunkStates.mkDefault).set_state ⟨0, 0, 0⟩
              ChunkState.Unloaded).regionPresent (chunkRegionCoords ⟨0, 0, 0⟩)) ∧
      (ChunkState.Loading ≠ ChunkState.Unloaded →
        (((applyStates [(⟨0, 0, 0⟩, ChunkState.Loaded)]
            VoxelChunkStates.mkDefault).set_state ⟨0, 0, 0⟩
              ChunkState.Loading).get_state ⟨0, 0, 0⟩ = ChunkState.Loading ∧
          ((applyStates [(⟨0, 0, 0⟩, ChunkState.Loaded)]
            VoxelChunkStates.mkDefault).set_state ⟨0, 0, 0⟩
              ChunkState.Loading).regionPresent (chunkRegionCoords ⟨0, 0, 0⟩))) := by
  have h := tracker_get_state_reports_last_set
    [(⟨0, 0, 0⟩, ChunkState.Loaded)] ⟨0, 0, 0⟩ ChunkState.Loading
  exact ⟨h.1, h.2.2.1, h.2.2.2⟩

/-! ## Streaming scheduler (`awgen_world/src/populator.rs`)

World positions are `f32` vectors in the source; the coordinates appearing
in the claims are exactly representable, so `Vec3` is modelled with exact
rational components and `as_ivec3` as the `f32 -> i32` cast (truncation
toward zero). Entities are modelled as natural-number identifiers. -/

/-- Truncation toward zero of a rational number, the behavior of Rust's
`as i32` cast on the in-range values used here. -/
def ratTrunc (q : Rat) : Int := Int.tdiv q.num (q.den : Int)

/-- Embedding of `glam::Vec3` restricted to exactly representable values. -/
structure Vec3 where
  x : Rat
  y : Rat
  z : Rat
deriving DecidableEq

/-- Embedding of `Vec3::as_ivec3`: componentwise truncation toward zero. -/
def Vec3.as_ivec3 (v : Vec3) : IVec3 := ⟨ratTrunc v.x, ratTrunc v.y, ratTrunc v.z⟩

/-- Embedding of `awgen_physics::Position`, keeping only the `translation`
field (rotation and scale are never read by the streaming scheduler). -/
structure Position where
  translation : Vec3

/-- Embedding of `ChunkAnchor`; the `world` entity is a natural-number
identifier, and the `u16` radii are naturals. -/
structure ChunkAnchor where
  world : Option Nat
  radius : Nat
  max_radius : Nat

/-- Embedding of `LoadChunkEvent`. -/
structure LoadChunkEvent where
  chunk_coords : IVec3
  world : Nat
deriving DecidableEq

/-- The body of `load_chunks`' loop over one anchor's chunk cuboid: a
chunk whose state reads `Unloaded` is set to `Loading` in the target
world's tracker and one `LoadChunkEvent` is emitted for it. -/
def loadChunkStep (world : Nat)
    (acc : (Nat → VoxelChunkStates) × List LoadChunkEvent) (chunk : IVec3) :
    (Nat → VoxelChunkStates) × List LoadChunkEvent :=
  if (acc.1 world).get_state chunk = ChunkState.Unloaded then
    (Function.update acc.1 world ((acc.1 world).set_state chunk ChunkState.Loading),
      acc.2 ++ [⟨chunk, world⟩])
  else acc

/-- The body of `load_chunks`' loop over the anchors: skip an anchor with
no world; otherwise iterate the inclusive load-radius cube of chunk
coordinates around the anchor's chunk. -/
def loadAnchorStep (acc : (Nat → VoxelChunkStates) × List LoadChunkEvent)
    (ap : ChunkAnchor × Position) :
    (Nat → VoxelChunkStates) × List LoadChunkEvent :=
  match ap.1.world with
  | none => acc
  | some world =>
    let pos := ap.2.translation.as_ivec3.shr4
    let min := pos - IVec3.splat (ap.1.radius : Int)
    let max := pos + IVec3.splat (ap.1.radius : Int)
    let region := Region.from_points min max
    region.iter.foldl (loadChunkStep world) acc

/-- Embedding of the `load_chunks` system: the `Query<&mut VoxelChunkStates>`
is a total map from world entity to its tracker, anchors are processed in
order, and events accumulate in emission order. -/
def load_chunks (states : Nat → VoxelChunkStates)
    (anchors : List (ChunkAnchor × Position)) :
    (Nat → VoxelChunkStates) × List LoadChunkEvent :=
  anchors.foldl loadAnchorStep (states, [])

set_option maxRecDepth 40000 in
/-- C3: starting from an empty tracker, one run of the `load_chunks` pass
with a single anchor at world position `(44.0, 2.1, -4.7)` (chunk
coordinate `(2,0,-1)`), load radius 1 and max radius 2, emits exactly one
`LoadChunkRequested` event for each of the 27 chunk coordinates of the
inclusive cuboid `(1,-1,-2)..(3,1,0)`, in nested-axis order `x` outer,
`y` middle, `z` inner, with no duplicates and no other events. -/
theorem load_chunks_single_anchor_emits_cuboid :
    (load_chunks (fun _ => VoxelChunkStates.mkDefault)
        [(⟨some 0, 1, 2⟩, ⟨⟨44, mkRat 21 10, mkRat (-47) 10⟩⟩)]).2 =
      [⟨⟨1, -1, -2⟩, 0⟩,
        ⟨⟨1, -1, -1⟩, 0⟩,
        ⟨⟨1, -1, 0⟩, 0⟩,
        ⟨⟨1, 0, -2⟩, 0⟩,
        ⟨⟨1, 0, -1⟩, 0⟩,
        ⟨⟨1, 0, 0⟩, 0⟩,
        ⟨⟨1, 1, -2⟩, 0⟩,
        ⟨⟨1, 1, -1⟩, 0⟩,
        ⟨⟨1, 1, 0⟩, 0⟩,
        ⟨⟨2, -1, -2⟩, 0⟩,
        ⟨⟨2, -1, -1⟩, 0⟩,
        ⟨⟨2, -1, 0⟩, 0⟩,
        ⟨⟨2, 0, -2⟩, 0⟩,
        ⟨⟨2, 0, -1⟩, 0⟩,
        ⟨⟨2, 0, 0⟩, 0⟩,
        ⟨⟨2, 1, -2⟩, 0⟩,
        ⟨⟨2, 1, -1⟩, 0⟩,
        ⟨⟨2, 1, 0⟩, 0⟩,
        ⟨⟨3, -1, -2⟩, 0⟩,
        ⟨⟨3, -1, -1⟩, 0⟩,
        ⟨⟨3, -1, 0⟩, 0⟩,
        ⟨⟨3, 0, -2⟩, 0⟩,
        ⟨⟨3, 0, -1⟩, 0⟩,
        ⟨⟨3, 0, 0⟩, 0⟩,
        ⟨⟨3, 1, -2⟩, 0⟩,
        ⟨⟨3, 1, -1⟩, 0⟩,
        ⟨⟨3, 1, 0⟩, 0⟩] := by
  decide

/-! ## At-most-one load request per chunk (claim C4) -/

/-- The invariant carried through one `load_chunks` pass whose anchors all
target world `w`: events name `w`, no chunk coordinate repeats, every event
was `Unloaded` in the starting tracker, every emitted chunk now reads
`Loading`, and any chunk still reading `Unloaded` was `Unloaded` at the
start. -/
def LoadInv (states0 : Nat → VoxelChunkStates) (w : Nat)
    (acc : (Nat → VoxelChunkStates) × List LoadChunkEvent) : Prop :=
  (∀ e ∈ acc.2, e.world = w) ∧
    (acc.2.map fun e => e.chunk_coords).Nodup ∧
    (∀ e ∈ acc.2, (states0 w).get_state e.chunk_coords = ChunkState.Unloaded) ∧
    (∀ e ∈ acc.2, (acc.1 w).get_state e.chunk_coords = ChunkState.Loading) ∧
    ∀ c, (acc.1 w).get_state c = ChunkState.Unloaded →
      (states0 w).get_state c = ChunkState.Unloaded

theorem loadInv_chunkStep (states0 : Nat → VoxelChunkStates) (w : Nat)
    (acc : (Nat → VoxelChunkStates) × List LoadChunkEvent) (chunk : IVec3)
    (h : LoadInv states0 w acc) : LoadInv states0 w (loadChunkStep w acc chunk) := by
  rcases h with ⟨h1, h2, h3, h4, h5⟩
  rw [loadChunkStep]
  by_cases hc : (acc.1 w).get_state chunk = ChunkState.Unloaded
  · rw [if_pos hc]
    have hnotin : chunk ∉ acc.2.map fun e => e.chunk_coords := by
      intro hm
      rcases List.mem_map.mp hm with ⟨e, he, hec⟩
      have := h4 e he
      rw [hec] at this
      rw [this] at hc
      exact ChunkState.noConfusion hc
    have hset : ∀ c : IVec3, c ≠ chunk →
        ((acc.1 w).set_state chunk ChunkState.Loading).get_state c =
          (acc.1 w).get_state c := fun c hne =>
      get_state_set_state_ne _ _ hne (Or.inl (fun h => ChunkState.noConfusion h))
    refine ⟨?_, ?_, ?_, ?_, ?_⟩
    · intro e he
      rcases List.mem_append.mp he with he | he
      · exact h1 e he
      · rcases List.mem_singleton.mp he with rfl
        rfl
    · rw [List.map_append, List.nodup_append]
      refine ⟨h2, List.nodup_singleton _, ?_⟩
      intro x hx hxs
      rcases List.mem_singleton.mp (by simpa using hxs) with rfl
      exact hnotin hx
    · intro e he
      rcases List.mem_append.mp he with he | he
      · exact h3 e he
      · rcases List.mem_singleton.mp he with rfl
        exact h5 _ hc
    · intro e he
      simp only [Function.update_same]
      rcases List.mem_append.mp he with he | he
      · have hne : e.chunk_coords ≠ chunk := by
          intro heq
          exact hnotin (heq ▸ List.mem_map.mpr ⟨e, he, rfl⟩)
        rw [hset _ hne]
        exact h4 e he
      · rcases List.mem_singleton.mp he with rfl
        exact get_state_set_state_same _ _ _ (Or.inl fun h => ChunkState.noConfusion h)
    · intro c hcu
      simp only [Function.update_same] at hcu
      by_cases hcc : c = chunk
      · subst hcc
        rw [get_state_set_state_same _ _ _
          (Or.inl fun h => ChunkState.noConfusion h)] at hcu
        exact ChunkState.noConfusion hcu
      · rw [hset _ hcc] at hcu
        exact h5 _ hcu
  · rw [if_neg hc]
    exact ⟨h1, h2, h3, h4, h5⟩

theorem loadInv_foldl_chunks (states0 : Nat → VoxelChunkStates) (w : Nat)
    (chunks : List IVec3) (acc : (Nat → VoxelChunkStates) × List LoadChunkEvent)
    (h : LoadInv states0 w acc) :
    LoadInv states0 w (chunks.foldl (loadChunkStep w) acc) := by
  induction chunks generalizing acc with
  | nil => exact h
  | cons c cs ih => exact ih _ (loadInv_chunkStep states0 w acc c h)

theorem loadInv_anchorStep (states0 : Nat → VoxelChunkStates) (w : Nat)
    (acc : (Nat → VoxelChunkStates) × List LoadChunkEvent)
    (ap : ChunkAnchor × Position)
    (hw : ap.1.world = some w ∨ ap.1.world = none)
    (h : LoadInv states0 w acc) : LoadInv states0 w (loadAnchorStep acc ap) := by
  rcases hw with hw | hw
  · rw [loadAnchorStep, hw]
    exact loadInv_foldl_chunks states0 w _ acc h
  · rw [loadAnchorStep, hw]
    exact h

theorem loadInv_foldl_anchors (states0 : Nat → VoxelChunkStates) (w : Nat)
    (anchors : List (ChunkAnchor × Position))
    (acc : (Nat → VoxelChunkStates) × List LoadChunkEvent)
    (hw : ∀ a ∈ anchors, a.1.world = some w ∨ a.1.world = none)
    (h : LoadInv states0 w acc) :
    LoadInv states0 w (anchors.foldl loadAnchorStep acc) := by
  induction anchors generalizing acc with
  | nil => exact h
  | cons a as ih =>
    exact ih _ (fun b hb => hw b (List.mem_cons_of_mem _ hb))
      (loadInv_anchorStep states0 w acc a (hw a (List.mem_cons_self _ _)) h)

/-- C4: in any single `load_chunks` pass over any anchors of one world
(possibly with overlapping load cuboids) and any starting tracker state,
each chunk coordinate receives at most one `LoadChunkRequested` event, an
event is emitted for a chunk only if its state read `Unloaded` when checked
(hence a chunk already `Loading` from a previous tick is never re-emitted),
and every emitted chunk's state ends up `Loading`. -/
theorem load_chunks_at_most_one_event (states : Nat → VoxelChunkStates)
    (anchors : List (ChunkAnchor × Position)) (w : Nat)
    (hw : ∀ a ∈ anchors, a.1.world = some w ∨ a.1.world = none) :
    (∀ e ∈ (load_chunks states anchors).2, e.world = w) ∧
      ((load_chunks states anchors).2.map fun e => e.chunk_coords).Nodup ∧
      (∀ e ∈ (load_chunks states anchors).2,
        (states w).get_state e.chunk_coords = ChunkState.Unloaded) ∧
      ∀ e ∈ (load_chunks states anchors).2,
        ((load_chunks states anchors).1 w).get_state e.chunk_coords =
          ChunkState.Loading := by
  have hbase : LoadInv states w (states, []) := by
    refine ⟨?_, ?_, ?_, ?_, fun c h => h⟩ <;> simp
  have hinv : LoadInv states w (load_chunks states anchors) :=
    loadInv_foldl_anchors states w anchors (states, []) hw hbase
  exact ⟨hinv.1, hinv.2.1, hinv.2.2.1, hinv.2.2.2.1⟩

theorem load_chunks_at_most_one_event_witness :
    (∀ a ∈ [((⟨some 0, 0, 0⟩ : ChunkAnchor), (⟨⟨0, 0, 0⟩⟩ : Position))],
        a.1.world = some 0 ∨ a.1.world = none) ∧
      ((∀ e ∈ (load_chunks (fun _ => VoxelChunkStates.mkDefault)
            [(⟨some 0, 0, 0⟩, ⟨⟨0, 0, 0⟩⟩)]).2, e.world = 0) ∧
        ((load_chunks (fun _ => VoxelChunkStates.mkDefault)
            [(⟨some 0, 0, 0⟩, ⟨⟨0, 0, 0⟩⟩)]).2.map fun e => e.chunk_coords).Nodup ∧
        (∀ e ∈ (load_chunks (fun _ => VoxelChunkStates.mkDefault)
            [(⟨some 0, 0, 0⟩, ⟨⟨0, 0, 0⟩⟩)]).2,
          ((fun _ => VoxelChunkStates.mkDefault) 0).get_state e.chunk_coords =
            ChunkState.Unloaded) ∧
        ∀ e ∈ (load_chunks (fun _ => VoxelChunkStates.mkDefault)
            [(⟨some 0, 0, 0⟩, ⟨⟨0, 0, 0⟩⟩)]).2,
          ((load_chunks (fun _ => VoxelChunkStates.mkDefault)
              [(⟨some 0, 0, 0⟩, ⟨⟨0, 0, 0⟩⟩)]).1 0).get_state e.chunk_coords =
            ChunkState.Loading) :=
  ⟨by simp, load_chunks_at_most_one_event (fun _ => VoxelChunkStates.mkDefault)
    [(⟨some 0, 0, 0⟩, ⟨⟨0, 0, 0⟩⟩)] 0 (by simp)⟩

/-! ## Batch region reads (`VoxelWorld::get_block_region`, claim C1) -/

/-- The linear chunk index used by `get_block_region`'s chunk loop:
`(chunk_coords.x & 15)*16*16 + (chunk_coords.y & 15)*16 + (chunk_coords.z & 15)`. -/
def chunkLinearIndex (c : IVec3) : Nat :=
  ((c.and15).x * 16 * 16 + (c.and15).y * 16 + (c.and15).z).toNat

/-- The chunk lookup performed once per chunk by `get_block_region`: the
first region with coordinates `chunk_coords >> 4`, then its optional chunk. -/
def chunkAt {α : Type} [Inhabited α] (w : VoxelWorld α) (cc : IVec3) :
    Option (VoxelChunk α) :=
  (w.regions.find? fun r => decide (r.region_coords = cc.shr4)).bind
    (fun r => r.chunks (chunkLinearIndex cc))

/-- The value `get_block_region` writes for one block: the chunk's stored
block when the chunk exists (`if let Some(chunk) = chunk`), else the default. -/
def chunkValue {α : Type} [Inhabited α] (chunk : Option (VoxelChunk α))
    (block : IVec3) : α :=
  match chunk with
  | some c => c.blocks (blockBlockIndex block)
  | none => default

/-- The output index `get_block_region` writes block `p` to:
`data_pos = p - min`, then
`data_pos.x * size.y * size.z + data_pos.y * size.z + data_pos.z` with
`size = max - min + 1` (cast to `usize`). -/
def flattenIdx (mn mx p : IVec3) : Nat :=
  ((p.x - mn.x) * (mx.y - mn.y + 1) * (mx.z - mn.z + 1) +
      (p.y - mn.y) * (mx.z - mn.z + 1) + (p.z - mn.z)).toNat

/-- The cuboid's volume `size.x * size.y * size.z` (cast to `usize`),
the length of `get_block_region`'s output vector. -/
def cuboidVolume (mn mx : IVec3) : Nat :=
  ((mx.x - mn.x + 1) * (mx.y - mn.y + 1) * (mx.z - mn.z + 1)).toNat

/-- The body of `get_block_region`'s inner loop over the blocks of one
chunk intersected with the requested cuboid. -/
def regionBlockStep {α : Type} [Inhabited α] (mn mx : IVec3)
    (chunk : Option (VoxelChunk α)) (data : List α) (block : IVec3) : List α :=
  data.set (flattenIdx mn mx block) (chunkValue chunk block)

/-- The body of `get_block_region`'s outer loop over the chunk coordinates
covering the cuboid: look the chunk up once, then copy the sub-cuboid of
its blocks intersecting the request. -/
def regionChunkStep {α : Type} [Inhabited α] (w : VoxelWorld α) (mn mx : IVec3)
    (data : List α) (cc : IVec3) : List α :=
  (cuboidPoints (mn.cmax cc.shl4) (mx.cmin (cc.shl4 + IVec3.splat 15))).foldl
    (regionBlockStep mn mx (chunkAt w cc)) data

/-- Embedding of `VoxelWorld::get_block_region`: the corners are normalized
in either order, the output starts as `vec![default; size.x*size.y*size.z]`,
and chunk coordinates covering the cuboid are visited once each. -/
def VoxelWorld.get_block_region {α : Type} [Inhabited α] (w : VoxelWorld α)
    (region : IVec3 × IVec3) : List α :=
  (cuboidPoints (region.1.cmin region.2).shr4 (region.1.cmax region.2).shr4).foldl
    (regionChunkStep w (region.1.cmin region.2) (region.1.cmax region.2))
    (List.replicate (cuboidVolume (region.1.cmin region.2) (region.1.cmax region.2))
      default)

theorem mem_intRange {base : Int} {n : Nat} {v : Int} :
    v ∈ intRange base n ↔ base ≤ v ∧ v < base + n := by
  induction n generalizing base with
  | zero =>
    simp only [intRange, List.not_mem_nil, false_iff]
    omega
  | succ n ih =>
    simp only [intRange, List.mem_cons, ih]
    omega

theorem mem_cuboidPoints {lo hi p : IVec3} :
    p ∈ cuboidPoints lo hi ↔ lo ≤ p ∧ p ≤ hi := by
  rw [cuboidPoints, List.mem_flatMap]
  constructor
  · rintro ⟨x, hx, hrest⟩
    rw [List.mem_flatMap] at hrest
    rcases hrest with ⟨y, hy, hz⟩
    rw [List.mem_map] at hz
    rcases hz with ⟨z, hz, rfl⟩
    rw [mem_intRange] at hx hy hz
    rw [IVec3.le_def, IVec3.le_def]
    exact ⟨⟨(by omega : lo.x ≤ x), (by omega : lo.y ≤ y), (by omega : lo.z ≤ z)⟩,
      (by omega : x ≤ hi.x), (by omega : y ≤ hi.y), (by omega : z ≤ hi.z)⟩
  · rintro ⟨h1, h2⟩
    rw [IVec3.le_def] at h1 h2
    refine ⟨p.x, ?_, ?_⟩
    · rw [mem_intRange]
      rcases h1 with ⟨h1x, h1y, h1z⟩
      rcases h2 with ⟨h2x, h2y, h2z⟩
      omega
    · rw [List.mem_flatMap]
      refine ⟨p.y, ?_, ?_⟩
      · rw [mem_intRange]
        rcases h1 with ⟨h1x, h1y, h1z⟩
        rcases h2 with ⟨h2x, h2y, h2z⟩
        omega
      · rw [List.mem_map]
        refine ⟨p.z, ?_, ?_⟩
        · rw [mem_intRange]
          rcases h1 with ⟨h1x, h1y, h1z⟩
          rcases h2 with ⟨h2x, h2y, h2z⟩
          omega
        · show (⟨p.x, p.y, p.z⟩ : IVec3) = p
          rcases p with ⟨px, py, pz⟩
          rfl

theorem IVec3.add_def (a b : IVec3) : a + b = ⟨a.x + b.x, a.y + b.y, a.z + b.z⟩ := rfl

theorem IVec3.sub_def (a b : IVec3) : a - b = ⟨a.x - b.x, a.y - b.y, a.z - b.z⟩ := rfl

theorem inner_flat_bounds {sy sz B C : Int} (hB : 0 ≤ B) (hB2 : B < sy)
    (hC : 0 ≤ C) (hC2 : C < sz) : 0 ≤ B * sz + C ∧ B * sz + C < sy * sz := by
  have hsz : 0 < sz := lt_of_le_of_lt hC hC2
  constructor
  · have h0 : 0 ≤ B * sz := mul_nonneg hB (le_of_lt hsz)
    linarith
  · have h1 : (B + 1) * sz ≤ sy * sz :=
      mul_le_mul_of_nonneg_right (by omega) (le_of_lt hsz)
    have r : (B + 1) * sz = B * sz + sz := by ring
    linarith

theorem flat3_nonneg (sy sz A B C : Int) (hA : 0 ≤ A) (hB : 0 ≤ B) (hB2 : B < sy)
    (hC : 0 ≤ C) (hC2 : C < sz) : 0 ≤ A * sy * sz + B * sz + C := by
  have hsy : 0 < sy := lt_of_le_of_lt hB hB2
  have hsz : 0 < sz := lt_of_le_of_lt hC hC2
  have h0 : 0 ≤ A * sy * sz := by
    have := mul_nonneg (mul_nonneg hA (le_of_lt hsy)) (le_of_lt hsz)
    linarith
  have h1 := (inner_flat_bounds hB hB2 hC hC2).1
  linarith

theorem flat3_lt (sx sy sz A B C : Int) (hA : 0 ≤ A) (hA2 : A < sx)
    (hB : 0 ≤ B) (hB2 : B < sy) (hC : 0 ≤ C) (hC2 : C < sz) :
    A * sy * sz + B * sz + C < sx * sy * sz := by
  have hsy : 0 < sy := lt_of_le_of_lt hB hB2
  have hsz : 0 < sz := lt_of_le_of_lt hC hC2
  have h1 : (A + 1) * (sy * sz) ≤ sx * (sy * sz) :=
    mul_le_mul_of_nonneg_right (by omega) (le_of_lt (mul_pos hsy hsz))
  have r1 : (A + 1) * (sy * sz) = A * sy * sz + sy * sz := by ring
  have r2 : sx * (sy * sz) = sx * sy * sz := by ring
  have h2 := (inner_flat_bounds hB hB2 hC hC2).2
  linarith

theorem flat3_inj (sy sz A B C A2 B2 C2 : Int)
    (hB : 0 ≤ B) (hB2 : B < sy) (hC : 0 ≤ C) (hC2 : C < sz)
    (hB' : 0 ≤ B2) (hB2' : B2 < sy) (hC' : 0 ≤ C2) (hC2' : C2 < sz)
    (h : A * sy * sz + B * sz + C = A2 * sy * sz + B2 * sz + C2) :
    A = A2 ∧ B = B2 ∧ C = C2 := by
  have hsy : 0 < sy := lt_of_le_of_lt hB hB2
  have hsz : 0 < sz := lt_of_le_of_lt hC hC2
  have hr := inner_flat_bounds hB hB2 hC hC2
  have hr' := inner_flat_bounds hB' hB2' hC' hC2'
  have hA : A = A2 := by
    by_contra hne
    rcases lt_or_gt_of_ne hne with hlt | hgt
    · have h1 : (A + 1) * (sy * sz) ≤ A2 * (sy * sz) :=
        mul_le_mul_of_nonneg_right (by omega) (le_of_lt (mul_pos hsy hsz))
      have r1 : (A + 1) * (sy * sz) = A * sy * sz + sy * sz := by ring
      have r2 : A2 * (sy * sz) = A2 * sy * sz := by ring
      linarith
    · have h1 : (A2 + 1) * (sy * sz) ≤ A * (sy * sz) :=
        mul_le_mul_of_nonneg_right (by omega) (le_of_lt (mul_pos hsy hsz))
      have r1 : (A2 + 1) * (sy * sz) = A2 * sy * sz + sy * sz := by ring
      have r2 : A * (sy * sz) = A * sy * sz := by ring
      linarith
  subst hA
  have h' : B * sz + C = B2 * sz + C2 := by linarith
  have hBB : B = B2 := by
    by_contra hne
    rcases lt_or_gt_of_ne hne with hlt | hgt
    · have h1 : (B + 1) * sz ≤ B2 * sz :=
        mul_le_mul_of_nonneg_right (by omega) (le_of_lt hsz)
      have r1 : (B + 1) * sz = B * sz + sz := by ring
      linarith
    · have h1 : (B2 + 1) * sz ≤ B * sz :=
        mul_le_mul_of_nonneg_right (by omega) (le_of_lt hsz)
      have r1 : (B2 + 1) * sz = B2 * sz + sz := by ring
      linarith
  subst hBB
  exact ⟨rfl, rfl, by linarith⟩

theorem flattenIdx_lt_volume {mn mx p : IVec3} (h1 : mn ≤ p) (h2 : p ≤ mx) :
    flattenIdx mn mx p < cuboidVolume mn mx := by
  rw [IVec3.le_def] at h1 h2
  rw [flattenIdx, cuboidVolume]
  have hnn := flat3_nonneg (mx.y - mn.y + 1) (mx.z - mn.z + 1)
    (p.x - mn.x) (p.y - mn.y) (p.z - mn.z)
    (by omega) (by omega) (by omega) (by omega) (by omega)
  have hlt := flat3_lt (mx.x - mn.x + 1) (mx.y - mn.y + 1) (mx.z - mn.z + 1)
    (p.x - mn.x) (p.y - mn.y) (p.z - mn.z)
    (by omega) (by omega) (by omega) (by omega) (by omega) (by omega)
  omega

theorem flattenIdx_inj {mn mx p q : IVec3} (hp1 : mn ≤ p) (hp2 : p ≤ mx)
    (hq1 : mn ≤ q) (hq2 : q ≤ mx)
    (h : flattenIdx mn mx p = flattenIdx mn mx q) : p = q := by
  rw [IVec3.le_def] at hp1 hp2 hq1 hq2
  rw [flattenIdx, flattenIdx] at h
  have hnp := flat3_nonneg (mx.y - mn.y + 1) (mx.z - mn.z + 1)
    (p.x - mn.x) (p.y - mn.y) (p.z - mn.z)
    (by omega) (by omega) (by omega) (by omega) (by omega)
  have hnq := flat3_nonneg (mx.y - mn.y + 1) (mx.z - mn.z + 1)
    (q.x - mn.x) (q.y - mn.y) (q.z - mn.z)
    (by omega) (by omega) (by omega) (by omega) (by omega)
  have hint : (p.x - mn.x) * (mx.y - mn.y + 1) * (mx.z - mn.z + 1) +
      (p.y - mn.y) * (mx.z - mn.z + 1) + (p.z - mn.z) =
        (q.x - mn.x) * (mx.y - mn.y + 1) * (mx.z - mn.z + 1) +
          (q.y - mn.y) * (mx.z - mn.z + 1) + (q.z - mn.z) := by
    omega
  obtain ⟨e1, e2, e3⟩ := flat3_inj (mx.y - mn.y + 1) (mx.z - mn.z + 1)
    (p.x - mn.x) (p.y - mn.y) (p.z - mn.z) (q.x - mn.x) (q.y - mn.y) (q.z - mn.z)
    (by omega) (by omega) (by omega) (by omega)
    (by omega) (by omega) (by omega) (by omega) hint
  rcases p with ⟨px, py, pz⟩
  rcases q with ⟨qx, qy, qz⟩
  simp only [IVec3.mk.injEq]
  dsimp only at e1 e2 e3
  omega

/-! ## The write pattern of `get_block_region` -/

theorem length_foldl_blockStep {α : Type} [Inhabited α] (mn mx : IVec3)
    (chunk : Option (VoxelChunk α)) (l : List IVec3) (data : List α) :
    (l.foldl (regionBlockStep mn mx chunk) data).length = data.length := by
  induction l generalizing data with
  | nil => rfl
  | cons a t ih =>
    rw [List.foldl_cons, ih]
    exact List.length_set _ _ _

theorem length_foldl_chunkStep {α : Type} [Inhabited α] (w : VoxelWorld α)
    (mn mx : IVec3) (cl : List IVec3) (data : List α) :
    (cl.foldl (regionChunkStep w mn mx) data).length = data.length := by
  induction cl generalizing data with
  | nil => rfl
  | cons cc t ih =>
    rw [List.foldl_cons, ih, regionChunkStep, length_foldl_blockStep]

theorem inner_mem_facts {mn mx cc q : IVec3}
    (h : q ∈ cuboidPoints (mn.cmax cc.shl4) (mx.cmin (cc.shl4 + IVec3.splat 15))) :
    (mn ≤ q ∧ q ≤ mx) ∧ q.shr4 = cc := by
  rcases mem_cuboidPoints.mp h with ⟨h1, h2⟩
  rw [IVec3.le_def] at h1 h2
  simp only [IVec3.cmax, IVec3.cmin, IVec3.shl4, IVec3.splat, IVec3.add_def] at h1 h2
  rcases h1 with ⟨a1, a2, a3⟩
  rcases h2 with ⟨b1, b2, b3⟩
  constructor
  · rw [IVec3.le_def, IVec3.le_def]
    exact ⟨⟨by omega, by omega, by omega⟩, by omega, by omega, by omega⟩
  · rcases q with ⟨qx, qy, qz⟩
    rcases cc with ⟨cx, cy, cz⟩
    simp only [IVec3.shr4, IVec3.mk.injEq]
    simp only at a1 a2 a3 b1 b2 b3
    refine ⟨?_, ?_, ?_⟩ <;> omega

theorem mem_inner_of {mn mx p : IVec3} (h1 : mn ≤ p) (h2 : p ≤ mx) :
    p ∈ cuboidPoints (mn.cmax p.shr4.shl4) (mx.cmin (p.shr4.shl4 + IVec3.splat 15)) := by
  rw [IVec3.le_def] at h1 h2
  refine mem_cuboidPoints.mpr ⟨?_, ?_⟩ <;>
    rw [IVec3.le_def] <;>
    simp only [IVec3.cmax, IVec3.cmin, IVec3.shl4, IVec3.shr4, IVec3.splat,
      IVec3.add_def] <;>
    refine ⟨?_, ?_, ?_⟩ <;> omega

theorem foldl_blockStep_get_ne {α : Type} [Inhabited α] (mn mx : IVec3)
    (chunk : Option (VoxelChunk α)) (l : List IVec3) (data : List α) (j : Nat)
    (hne : ∀ q ∈ l, flattenIdx mn mx q ≠ j) :
    (l.foldl (regionBlockStep mn mx chunk) data)[j]? = data[j]? := by
  induction l generalizing data with
  | nil => rfl
  | cons a t ih =>
    rw [List.foldl_cons, ih _ fun q hq => hne q (List.mem_cons_of_mem _ hq)]
    exact List.getElem?_set_ne (hne a (List.mem_cons_self _ _))

theorem foldl_blockStep_get_mem {α : Type} [Inhabited α] (mn mx : IVec3)
    (chunk : Option (VoxelChunk α)) (l : List IVec3) (data : List α) (p : IVec3)
    (hmem : p ∈ l) (hin : ∀ q ∈ l, mn ≤ q ∧ q ≤ mx)
    (hlen : flattenIdx mn mx p < data.length) :
    (l.foldl (regionBlockStep mn mx chunk) data)[flattenIdx mn mx p]? =
      some (chunkValue chunk p) := by
  induction l generalizing data with
  | nil => cases hmem
  | cons a t ih =>
    rw [List.foldl_cons]
    by_cases hpt : p ∈ t
    · refine ih _ hpt (fun q hq => hin q (List.mem_cons_of_mem _ hq)) ?_
      rw [regionBlockStep, List.length_set]
      exact hlen
    · have hap : a = p := by
        rcases List.mem_cons.mp hmem with h | h
        · exact h.symm
        · exact absurd h hpt
      subst hap
      rw [foldl_blockStep_get_ne mn mx chunk t _ _ ?frame]
      case frame =>
        intro q hq he
        have hqa : q = a :=
          flattenIdx_inj (hin q (List.mem_cons_of_mem _ hq)).1
            (hin q (List.mem_cons_of_mem _ hq)).2
            (hin a (List.mem_cons_self _ _)).1 (hin a (List.mem_cons_self _ _)).2 he
        exact hpt (hqa ▸ hq)
      rw [regionBlockStep]
      exact List.getElem?_set_self hlen

theorem shr4_shr4 (p : IVec3) : p.shr4.shr4 = blockRegionCoords p := by
  rcases p with ⟨px, py, pz⟩
  simp only [IVec3.shr4, IVec3.shr8, blockRegionCoords, IVec3.mk.injEq]
  refine ⟨?_, ?_, ?_⟩ <;> omega

theorem chunkValue_chunkAt {α : Type} [Inhabited α] (w : VoxelWorld α) (p : IVec3) :
    chunkValue (chunkAt w p.shr4) p = w.get_block_data p := by
  rw [chunkAt, shr4_shr4]
  rfl

theorem shr4_le_shr4 {u v : IVec3} (h : u ≤ v) : u.shr4 ≤ v.shr4 := by
  rw [IVec3.le_def] at h
  rw [IVec3.le_def]
  rcases u with ⟨ux, uy, uz⟩
  rcases v with ⟨vx, vy, vz⟩
  simp only [IVec3.shr4]
  simp only at h
  refine ⟨?_, ?_, ?_⟩ <;> omega

theorem foldl_chunkStep_get_ne {α : Type} [Inhabited α] (w : VoxelWorld α)
    (mn mx : IVec3) (cl : List IVec3) (data : List α) (j : Nat)
    (hne : ∀ q : IVec3, mn ≤ q → q ≤ mx → q.shr4 ∈ cl → flattenIdx mn mx q ≠ j) :
    (cl.foldl (regionChunkStep w mn mx) data)[j]? = data[j]? := by
  induction cl generalizing data with
  | nil => rfl
  | cons cc t ih =>
    rw [List.foldl_cons,
      ih _ fun q h1 h2 hq => hne q h1 h2 (List.mem_cons_of_mem _ hq)]
    rw [regionChunkStep]
    refine foldl_blockStep_get_ne _ _ _ _ _ _ fun q hq => ?_
    rcases inner_mem_facts hq with ⟨⟨h1, h2⟩, h3⟩
    exact hne q h1 h2 (h3 ▸ List.mem_cons_self _ _)

theorem foldl_chunkStep_get_mem {α : Type} [Inhabited α] (w : VoxelWorld α)
    (mn mx : IVec3) (cl : List IVec3) (data : List α) (p : IVec3)
    (h1 : mn ≤ p) (h2 : p ≤ mx) (hmem : p.shr4 ∈ cl)
    (hlen : flattenIdx mn mx p < data.length) :
    (cl.foldl (regionChunkStep w mn mx) data)[flattenIdx mn mx p]? =
      some (w.get_block_data p) := by
  induction cl generalizing data with
  | nil => cases hmem
  | cons cc t ih =>
    rw [List.foldl_cons]
    by_cases hpt : p.shr4 ∈ t
    · refine ih _ hpt ?_
      rw [regionChunkStep, length_foldl_blockStep]
      exact hlen
    · have hcc : cc = p.shr4 := by
        rcases List.mem_cons.mp hmem with h | h
        · exact h.symm
        · exact absurd h hpt
      subst hcc
      rw [foldl_chunkStep_get_ne w mn mx t _ _ ?frame]
      case frame =>
        intro q hq1 hq2 hqt he
        have hqp : q = p := flattenIdx_inj hq1 hq2 h1 h2 he
        exact hpt (hqp ▸ hqt)
      rw [regionChunkStep, foldl_blockStep_get_mem _ _ _ _ _ _
        (mem_inner_of h1 h2) (fun q hq => (inner_mem_facts hq).1) hlen]
      rw [chunkValue_chunkAt]

/-- C1: for every voxel world state and cuboid given by any pair of
opposite corners in either order, `get_block_region` returns a vector of
length exactly the cuboid's volume whose entry at the row-major flattened
index of each contained position `p` equals `get_block_data p` (hence
positions in unallocated chunks or regions read the payload default). -/
theorem get_block_region_batch_scalar_equivalence {α : Type} [Inhabited α]
    (w : VoxelWorld α) (a b : IVec3) :
    (w.get_block_region (a, b)).length = cuboidVolume (a.cmin b) (a.cmax b) ∧
      ∀ p : IVec3, a.cmin b ≤ p → p ≤ a.cmax b →
        (w.get_block_region (a, b))[flattenIdx (a.cmin b) (a.cmax b) p]? =
          some (w.get_block_data p) := by
  constructor
  · rw [VoxelWorld.get_block_region, length_foldl_chunkStep, List.length_replicate]
  · intro p h1 h2
    rw [VoxelWorld.get_block_region]
    refine foldl_chunkStep_get_mem _ _ _ _ _ _ h1 h2 ?_ ?_
    · exact mem_cuboidPoints.mpr ⟨shr4_le_shr4 h1, shr4_le_shr4 h2⟩
    · rw [List.length_replicate]
      exact flattenIdx_lt_volume h1 h2

theorem get_block_region_batch_scalar_equivalence_witness :
    ((VoxelWorld.mkDefault Nat).get_block_region (⟨0, 0, 0⟩, ⟨1, 0, 0⟩)).length =
        cuboidVolume ((⟨0, 0, 0⟩ : IVec3).cmin ⟨1, 0, 0⟩)
          ((⟨0, 0, 0⟩ : IVec3).cmax ⟨1, 0, 0⟩) ∧
      ((⟨0, 0, 0⟩ : IVec3).cmin ⟨1, 0, 0⟩ ≤ ⟨1, 0, 0⟩) ∧
      ((⟨1, 0, 0⟩ : IVec3) ≤ (⟨0, 0, 0⟩ : IVec3).cmax ⟨1, 0, 0⟩) ∧
      ((VoxelWorld.mkDefault Nat).get_block_region (⟨0, 0, 0⟩, ⟨1, 0, 0⟩))[
          flattenIdx ((⟨0, 0, 0⟩ : IVec3).cmin ⟨1, 0, 0⟩)
            ((⟨0, 0, 0⟩ : IVec3).cmax ⟨1, 0, 0⟩) ⟨1, 0, 0⟩]? =
        some ((VoxelWorld.mkDefault Nat).get_block_data ⟨1, 0, 0⟩) :=
  ⟨(get_block_region_batch_scalar_equivalence (VoxelWorld.mkDefault Nat)
      ⟨0, 0, 0⟩ ⟨1, 0, 0⟩).1,
    by decide, by decide,
    (get_block_region_batch_scalar_equivalence (VoxelWorld.mkDefault Nat)
      ⟨0, 0, 0⟩ ⟨1, 0, 0⟩).2 ⟨1, 0, 0⟩ (by decide) (by decide)⟩

/-! ## Chunk mesher (`awgen_world_mesh`)

The mesher reads an 18×18×18 halo of `BlockShape` data and emits quads for
the unoccluded faces of each block of the 16³ chunk. The `f32` mesh
attributes are exactly representable here and are modelled as rationals;
the `u16` index cast is modelled as `% 65536`. The `ChunkMesher`
accumulator is the output (its conversion to a bevy `Mesh` copies the four
buffers verbatim). -/

/-- Embedding of `BlockShape`. -/
inductive BlockShape where
  | Empty
  | Cube
  | Custom
deriving DecidableEq

/-- Embedding of `BlockShape::default()`: `Empty`. -/
instance : Inhabited BlockShape := ⟨BlockShape.Empty⟩

/-- Embedding of `BlockShape::get_occlusion`. -/
def BlockShape.get_occlusion : BlockShape → BlockOcclusion
  | BlockShape.Empty => BlockOcclusion.INNER
  | BlockShape.Custom => BlockOcclusion.empty
  | BlockShape.Cube =>
    ((((BlockOcclusion.NEG_X.or BlockOcclusion.POS_X).or
        BlockOcclusion.NEG_Y).or BlockOcclusion.POS_Y).or
      BlockOcclusion.NEG_Z).or BlockOcclusion.POS_Z

/-- Embedding of `ChunkMesher`: the four parallel output buffers. -/
structure ChunkMesher where
  indices : List Nat
  vertices : List Vec3
  normals : List Vec3
  uvs : List (Rat × Rat)
deriving DecidableEq

/-- Embedding of `ChunkMesher::default()`: four empty buffers. -/
def ChunkMesher.mkDefault : ChunkMesher := ⟨[], [], [], []⟩

/-- Componentwise addition on `Vec3`. -/
instance : Add Vec3 := ⟨fun a b => ⟨a.x + b.x, a.y + b.y, a.z + b.z⟩⟩

/-- Embedding of `Vec3::ZERO` as the default corner value. -/
instance : Inhabited Vec3 := ⟨⟨0, 0, 0⟩⟩

/-- Embedding of `write_cube`'s `VERTS` lookup table of unit-cube corners. -/
def VERTS : List Vec3 :=
  [⟨0, 0, 0⟩, ⟨0, 0, 1⟩, ⟨0, 1, 0⟩, ⟨0, 1, 1⟩,
    ⟨1, 0, 0⟩, ⟨1, 0, 1⟩, ⟨1, 1, 0⟩, ⟨1, 1, 1⟩]

/-- Embedding of `write_cube`'s `quad` closure: reads the running vertex
count (`as u16`, hence `% 65536`), appends the 6 indices
`v, v+1, v+2, v, v+2, v+3`, the 4 vertices from the corner table offset by
the block position, 4 copies of the normal, and the 4 UV corners. -/
def pushQuad (mesh : ChunkMesher) (pos : Vec3) (v0 v1 v2 v3 : Nat)
    (normal : Vec3) : ChunkMesher :=
  { indices :=
      mesh.indices ++
        [mesh.vertices.length % 65536, (mesh.vertices.length % 65536 + 1) % 65536,
          (mesh.vertices.length % 65536 + 2) % 65536, mesh.vertices.length % 65536,
          (mesh.vertices.length % 65536 + 2) % 65536,
          (mesh.vertices.length % 65536 + 3) % 65536],
    vertices :=
      mesh.vertices ++
        [pos + VERTS.getD v0 default, pos + VERTS.getD v1 default,
          pos + VERTS.getD v2 default, pos + VERTS.getD v3 default],
    normals := mesh.normals ++ [normal, normal, normal, normal],
    uvs := mesh.uvs ++ [(0, 0), (0, 1), (1, 1), (1, 0)] }

/-- Embedding of `write_cube`: one quad per unoccluded face, in the fixed
order `NEG_X, POS_X, NEG_Y, POS_Y, NEG_Z, POS_Z`. -/
def write_cube (mesh : ChunkMesher) (occlusion : BlockOcclusion) (pos : Vec3) :
    ChunkMesher :=
  let m1 := if occlusion.contains BlockOcclusion.NEG_X then mesh
    else pushQuad mesh pos 0 1 3 2 ⟨-1, 0, 0⟩
  let m2 := if occlusion.contains BlockOcclusion.POS_X then m1
    else pushQuad m1 pos 4 6 7 5 ⟨1, 0, 0⟩
  let m3 := if occlusion.contains BlockOcclusion.NEG_Y then m2
    else pushQuad m2 pos 0 4 5 1 ⟨0, -1, 0⟩
  let m4 := if occlusion.contains BlockOcclusion.POS_Y then m3
    else pushQuad m3 pos 2 3 7 6 ⟨0, 1, 0⟩
  let m5 := if occlusion.contains BlockOcclusion.NEG_Z then m4
    else pushQuad m4 pos 0 2 6 4 ⟨0, 0, -1⟩
  if occlusion.contains BlockOcclusion.POS_Z then m5
  else pushQuad m5 pos 1 5 7 3 ⟨0, 0, 1⟩

/-- Embedding of `BlockShape::push_to_mesh`. -/
def BlockShape.push_to_mesh (shape : BlockShape) (mesh : ChunkMesher)
    (occlusion : BlockOcclusion) (pos : Vec3) : ChunkMesher :=
  match shape with
  | BlockShape.Empty => mesh
  | BlockShape.Custom => mesh
  | BlockShape.Cube => write_cube mesh occlusion pos

/-- Embedding of `IVec3::as_vec3`. -/
def IVec3.as_vec3 (v : IVec3) : Vec3 := ⟨(v.x : Rat), (v.y : Rat), (v.z : Rat)⟩

/-- Embedding of `generate_chunk_mesh`'s `check_dir` closure: if the
neighbor's shape occludes the mirrored face, insert `flag` into the
occlusion set. -/
def checkDir (region : Region) (shape_data : List BlockShape) (pos offset : IVec3)
    (flag : BlockOcclusion) (occlusion : BlockOcclusion) : BlockOcclusion :=
  if (shape_data.getD ((region.point_to_index (pos + offset)).getD 0)
        default).get_occlusion.contains flag.opposite_face then
    occlusion.or flag
  else occlusion

/-- The per-block body of `generate_chunk_mesh`'s loop: skip a
self-occluding (`INNER`) block, otherwise compute the six-direction
occlusion from the padded shape data and emit the block's geometry at its
local position. The `unwrap` of `point_to_index` is modelled as `getD 0`;
for the chunk at the origin every queried point lies inside the padded
region. -/
def meshBlockStep (region : Region) (shape_data : List BlockShape)
    (mesher : ChunkMesher) (pos : IVec3) : ChunkMesher :=
  if (shape_data.getD ((region.point_to_index pos).getD 0)
        default).get_occlusion.contains BlockOcclusion.INNER then
    mesher
  else
    (shape_data.getD ((region.point_to_index pos).getD 0) default).push_to_mesh
      mesher
      (checkDir region shape_data pos ⟨0, 0, 1⟩ BlockOcclusion.POS_Z
        (checkDir region shape_data pos ⟨0, 0, -1⟩ BlockOcclusion.NEG_Z
          (checkDir region shape_data pos ⟨0, 1, 0⟩ BlockOcclusion.POS_Y
            (checkDir region shape_data pos ⟨0, -1, 0⟩ BlockOcclusion.NEG_Y
              (checkDir region shape_data pos ⟨1, 0, 0⟩ BlockOcclusion.POS_X
                (checkDir region shape_data pos ⟨-1, 0, 0⟩ BlockOcclusion.NEG_X
                  BlockOcclusion.empty))))))
      pos.as_vec3

/-- Embedding of `generate_chunk_mesh`: read the 18×18×18 halo region
around the chunk in one batch (`get_block_region` over the region's
inclusive corners) and fold the per-block step over the chunk's 16³
positions. -/
def generate_chunk_mesh (chunk_coords : IVec3) (shapes : VoxelWorld BlockShape) :
    ChunkMesher :=
  Region.CHUNK.iter.foldl
    (meshBlockStep (Region.from_size (chunk_coords.shl4 - IVec3.splat 1) ⟨18, 18, 18⟩)
      (shapes.get_block_region
        ((Region.from_size (chunk_coords.shl4 - IVec3.splat 1) ⟨18, 18, 18⟩).min,
          (Region.from_size (chunk_coords.shl4 - IVec3.splat 1) ⟨18, 18, 18⟩).max)))
    ChunkMesher.mkDefault

/-! ## Face culling for a single cube (claim C6) -/

theorem get_block_region_getD {α : Type} [Inhabited α] (w : VoxelWorld α)
    (a b p : IVec3) (h1 : a.cmin b ≤ p) (h2 : p ≤ a.cmax b) :
    (w.get_block_region (a, b)).getD (flattenIdx (a.cmin b) (a.cmax b) p) default =
      w.get_block_data p := by
  rw [List.getD_eq_getElem?_getD, VoxelWorld.get_block_region,
    foldl_chunkStep_get_mem _ _ _ _ _ _ h1 h2
      (mem_cuboidPoints.mpr ⟨shr4_le_shr4 h1, shr4_le_shr4 h2⟩)
      (by rw [List.length_replicate]; exact flattenIdx_lt_volume h1 h2)]
  rfl

theorem foldl_skip_all {β : Type} (f : β → IVec3 → β) (l : List IVec3)
    (h : ∀ m p, p ∈ l → f m p = m) : ∀ m, l.foldl f m = m := by
  induction l with
  | nil => intro m; rfl
  | cons a t ih =>
    intro m
    rw [List.foldl_cons, h m a (List.mem_cons_self _ _)]
    exact ih (fun m p hp => h m p (List.mem_cons_of_mem _ hp)) m

theorem foldl_single {β : Type} (f : β → IVec3 → β) (l : List IVec3) (c : IVec3)
    (hskip : ∀ m p, p ∈ l → p ≠ c → f m p = m) (hcount : l.count c = 1) :
    ∀ m, l.foldl f m = f m c := by
  induction l with
  | nil => simp [List.count_nil] at hcount
  | cons a t ih =>
    intro m
    rw [List.foldl_cons]
    by_cases hac : a = c
    · subst hac
      have hc0 : t.count a = 0 := by
        rw [List.count_cons_self] at hcount
        omega
      have hnot : a ∉ t := List.count_eq_zero.mp hc0
      refine foldl_skip_all f t (fun m' p hp => ?_) (f m a)
      exact hskip m' p (List.mem_cons_of_mem _ hp) fun he => hnot (he ▸ hp)
    · rw [hskip m a (List.mem_cons_self _ _) hac]
      refine ih (fun m' p hp hpc => hskip m' p (List.mem_cons_of_mem _ hp) hpc) ?_ m
      rw [List.count_cons_of_ne (fun he => hac he.symm)] at hcount
      exact hcount

theorem mem_CHUNK_iter {p : IVec3} :
    p ∈ Region.CHUNK.iter ↔ (⟨0, 0, 0⟩ : IVec3) ≤ p ∧ p ≤ ⟨15, 15, 15⟩ := by
  rw [Region.iter, show Region.CHUNK.min = ⟨0, 0, 0⟩ from rfl,
    show Region.CHUNK.max = ⟨15, 15, 15⟩ from by decide]
  exact mem_cuboidPoints

theorem R0_point_index (q : IVec3) (h1 : (⟨-1, -1, -1⟩ : IVec3) ≤ q)
    (h2 : q ≤ ⟨16, 16, 16⟩) :
    ((Region.from_size ⟨-1, -1, -1⟩ ⟨18, 18, 18⟩).point_to_index q).getD 0 =
      flattenIdx ⟨-1, -1, -1⟩ ⟨16, 16, 16⟩ q := by
  have hin : (Region.from_size ⟨-1, -1, -1⟩ ⟨18, 18, 18⟩).min ≤ q ∧
      q ≤ (Region.from_size ⟨-1, -1, -1⟩ ⟨18, 18, 18⟩).max := by
    refine ⟨h1, ?_⟩
    rw [show (Region.from_size ⟨-1, -1, -1⟩ ⟨18, 18, 18⟩).max = ⟨16, 16, 16⟩
      from by decide]
    exact h2
  rw [Region.point_to_index, if_pos hin, Option.getD_some, flattenIdx]
  congr 1

theorem halo_getD (w : VoxelWorld BlockShape) (q : IVec3)
    (h1 : (⟨-1, -1, -1⟩ : IVec3) ≤ q) (h2 : q ≤ ⟨16, 16, 16⟩) :
    (w.get_block_region ((Region.from_size ⟨-1, -1, -1⟩ ⟨18, 18, 18⟩).min,
        (Region.from_size ⟨-1, -1, -1⟩ ⟨18, 18, 18⟩).max)).getD
      (((Region.from_size ⟨-1, -1, -1⟩ ⟨18, 18, 18⟩).point_to_index q).getD 0)
      default = w.get_block_data q := by
  rw [R0_point_index q h1 h2]
  have e1 : ((Region.from_size ⟨-1, -1, -1⟩ ⟨18, 18, 18⟩).min).cmin
      ((Region.from_size ⟨-1, -1, -1⟩ ⟨18, 18, 18⟩).max) = ⟨-1, -1, -1⟩ := by decide
  have e2 : ((Region.from_size ⟨-1, -1, -1⟩ ⟨18, 18, 18⟩).min).cmax
      ((Region.from_size ⟨-1, -1, -1⟩ ⟨18, 18, 18⟩).max) = ⟨16, 16, 16⟩ := by decide
  have h := get_block_region_getD w (Region.from_size ⟨-1, -1, -1⟩ ⟨18, 18, 18⟩).min
    (Region.from_size ⟨-1, -1, -1⟩ ⟨18, 18, 18⟩).max q
    (by rw [e1]; exact h1) (by rw [e2]; exact h2)
  rw [e1, e2] at h
  exact h

theorem checkDir_skip (region : Region) (sd : List BlockShape) (pos offset : IVec3)
    (flag acc : BlockOcclusion)
    (h : (sd.getD ((region.point_to_index (pos + offset)).getD 0)
        default).get_occlusion.contains flag.opposite_face = false) :
    checkDir region sd pos offset flag acc = acc := by
  rw [checkDir, h]
  simp

theorem checkDir_hit (region : Region) (sd : List BlockShape) (pos offset : IVec3)
    (flag acc : BlockOcclusion)
    (h : (sd.getD ((region.point_to_index (pos + offset)).getD 0)
        default).get_occlusion.contains flag.opposite_face = true) :
    checkDir region sd pos offset flag acc = acc.or flag := by
  rw [checkDir, h]
  simp

theorem nodup_intRange (base : Int) (n : Nat) : (intRange base n).Nodup := by
  induction n generalizing base with
  | zero => exact List.nodup_nil
  | succ n ih =>
    rw [intRange, List.nodup_cons]
    refine ⟨fun hm => ?_, ih (base + 1)⟩
    have := mem_intRange.mp hm
    omega

theorem nodup_cuboidPoints (lo hi : IVec3) : (cuboidPoints lo hi).Nodup := by
  rw [cuboidPoints, List.nodup_flatMap]
  constructor
  · intro x hx
    rw [List.nodup_flatMap]
    constructor
    · intro y hy
      refine List.Nodup.map ?_ (nodup_intRange _ _)
      intro a b h
      exact ((IVec3.mk.injEq _ _ _ _ _ _).mp h).2.2
    · refine List.Pairwise.imp ?_ (nodup_intRange _ _)
      intro y1 y2 hne v hv1 hv2
      rw [List.mem_map] at hv1 hv2
      rcases hv1 with ⟨z1, hz1, rfl⟩
      rcases hv2 with ⟨z2, hz2, he⟩
      exact hne ((IVec3.mk.injEq _ _ _ _ _ _).mp he.symm).2.1
  · refine List.Pairwise.imp ?_ (nodup_intRange _ _)
    intro x1 x2 hne v hv1 hv2
    rw [List.mem_flatMap] at hv1 hv2
    rcases hv1 with ⟨y1, hy1, hv1⟩
    rcases hv2 with ⟨y2, hy2, hv2⟩
    rw [List.mem_map] at hv1 hv2
    rcases hv1 with ⟨z1, hz1, rfl⟩
    rcases hv2 with ⟨z2, hz2, he⟩
    exact hne ((IVec3.mk.injEq _ _ _ _ _ _).mp he.symm).1

theorem CHUNK_iter_count_center : Region.CHUNK.iter.count ⟨7, 7, 7⟩ = 1 :=
  List.count_eq_one_of_mem (nodup_cuboidPoints _ _)
    (mem_CHUNK_iter.mpr ⟨by decide, by decide⟩)

theorem scenario1_skip :
    ∀ (m : ChunkMesher) (pos : IVec3), pos ∈ Region.CHUNK.iter → pos ≠ ⟨7, 7, 7⟩ →
      meshBlockStep (Region.from_size ⟨-1, -1, -1⟩ ⟨18, 18, 18⟩)
        (((VoxelWorld.mkDefault BlockShape).set_block_data ⟨7, 7, 7⟩
            BlockShape.Cube).get_block_region
          ((Region.from_size ⟨-1, -1, -1⟩ ⟨18, 18, 18⟩).min,
            (Region.from_size ⟨-1, -1, -1⟩ ⟨18, 18, 18⟩).max)) m pos = m := by
  intro m pos hmem hne
  rcases mem_CHUNK_iter.mp hmem with ⟨hm1, hm2⟩
  rw [IVec3.le_def] at hm1 hm2
  have h1 : (⟨-1, -1, -1⟩ : IVec3) ≤ pos := by
    rw [IVec3.le_def]
    refine ⟨?_, ?_, ?_⟩ <;> simp only at hm1 hm2 ⊢ <;> omega
  have h2 : pos ≤ ⟨16, 16, 16⟩ := by
    rw [IVec3.le_def]
    refine ⟨?_, ?_, ?_⟩ <;> simp only at hm1 hm2 ⊢ <;> omega
  have hval :
      ((((VoxelWorld.mkDefault BlockShape).set_block_data ⟨7, 7, 7⟩
          BlockShape.Cube).get_block_region
        ((Region.from_size ⟨-1, -1, -1⟩ ⟨18, 18, 18⟩).min,
          (Region.from_size ⟨-1, -1, -1⟩ ⟨18, 18, 18⟩).max)).getD
        (((Region.from_size ⟨-1, -1, -1⟩ ⟨18, 18, 18⟩).point_to_index pos).getD 0)
        default) = BlockShape.Empty := by
    rw [halo_getD _ pos h1 h2, get_set_ne _ _ fun he => hne he.symm]
    rfl
  rw [meshBlockStep, hval, if_pos (by decide :
    (BlockShape.Empty.get_occlusion.contains BlockOcclusion.INNER) = true)]


/-- C6: meshing the chunk at the origin containing a single `Cube` block at
`(7,7,7)` with all six face neighbors `Empty` produces exactly 6 quads
(24 vertices, 24 normals, 24 UV pairs, 36 indices), the indices of each
quad following the `v, v+1, v+2, v, v+2, v+3` pattern on the running vertex
count; with all six neighbors also `Cube`-shaped, the same block is fully
occluded and appends nothing to the mesh (its contribution to the mesh is
empty). -/
theorem mesh_single_cube_face_culling :
    ((generate_chunk_mesh ⟨0, 0, 0⟩ ((VoxelWorld.mkDefault BlockShape).set_block_data ⟨7, 7, 7⟩ BlockShape.Cube)) = write_cube ChunkMesher.mkDefault BlockOcclusion.empty ⟨7, 7, 7⟩) ∧
      (generate_chunk_mesh ⟨0, 0, 0⟩ ((VoxelWorld.mkDefault BlockShape).set_block_data ⟨7, 7, 7⟩ BlockShape.Cube)).vertices.length = 24 ∧
      (generate_chunk_mesh ⟨0, 0, 0⟩ ((VoxelWorld.mkDefault BlockShape).set_block_data ⟨7, 7, 7⟩ BlockShape.Cube)).normals.length = 24 ∧
      (generate_chunk_mesh ⟨0, 0, 0⟩ ((VoxelWorld.mkDefault BlockShape).set_block_data ⟨7, 7, 7⟩ BlockShape.Cube)).uvs.length = 24 ∧
      (generate_chunk_mesh ⟨0, 0, 0⟩ ((VoxelWorld.mkDefault BlockShape).set_block_data ⟨7, 7, 7⟩ BlockShape.Cube)).indices.length = 36 ∧
      (generate_chunk_mesh ⟨0, 0, 0⟩ ((VoxelWorld.mkDefault BlockShape).set_block_data ⟨7, 7, 7⟩ BlockShape.Cube)).indices = [0, 1, 2, 0, 2, 3, 4, 5, 6, 4, 6, 7, 8, 9, 10, 8, 10, 11, 12, 13, 14, 12, 14, 15, 16, 17, 18, 16, 18, 19, 20, 21, 22, 20, 22, 23] ∧
      (∀ m : ChunkMesher, meshBlockStep (Region.from_size ⟨-1, -1, -1⟩ ⟨18, 18, 18⟩) (((((((((VoxelWorld.mkDefault BlockShape).set_block_data ⟨7, 7, 7⟩ BlockShape.Cube).set_block_data ⟨6, 7, 7⟩ BlockShape.Cube).set_block_data ⟨8, 7, 7⟩ BlockShape.Cube).set_block_data ⟨7, 6, 7⟩ BlockShape.Cube).set_block_data ⟨7, 8, 7⟩ BlockShape.Cube).set_block_data ⟨7, 7, 6⟩ BlockShape.Cube).set_block_data ⟨7, 7, 8⟩ BlockShape.Cube).get_block_region ((Region.from_size ⟨-1, -1, -1⟩ ⟨18, 18, 18⟩).min, (Region.from_size ⟨-1, -1, -1⟩ ⟨18, 18, 18⟩).max)) m ⟨7, 7, 7⟩ = m) ∧
      ∀ (m : ChunkMesher) (p : Vec3) (a b c d : Nat) (n : Vec3),
        m.vertices.length + 3 < 65536 →
          (pushQuad m p a b c d n).indices =
            m.indices ++
              [m.vertices.length, m.vertices.length + 1, m.vertices.length + 2,
                m.vertices.length, m.vertices.length + 2, m.vertices.length + 3] := by
  have hreg : Region.from_size ((⟨0, 0, 0⟩ : IVec3).shl4 - IVec3.splat 1)
      ⟨18, 18, 18⟩ = Region.from_size ⟨-1, -1, -1⟩ ⟨18, 18, 18⟩ := by decide
  have part1 : (generate_chunk_mesh ⟨0, 0, 0⟩ ((VoxelWorld.mkDefault BlockShape).set_block_data ⟨7, 7, 7⟩ BlockShape.Cube)) = write_cube ChunkMesher.mkDefault BlockOcclusion.empty ⟨7, 7, 7⟩ := by
    rw [generate_chunk_mesh, hreg,
      foldl_single _ _ ⟨7, 7, 7⟩ scenario1_skip CHUNK_iter_count_center]
    have hc : (((VoxelWorld.mkDefault BlockShape).set_block_data ⟨7, 7, 7⟩ BlockShape.Cube).get_block_region ((Region.from_size ⟨-1, -1, -1⟩ ⟨18, 18, 18⟩).min, (Region.from_size ⟨-1, -1, -1⟩ ⟨18, 18, 18⟩).max)).getD (((Region.from_size ⟨-1, -1, -1⟩ ⟨18, 18, 18⟩).point_to_index ⟨7, 7, 7⟩).getD 0) default = BlockShape.Cube := by
      rw [halo_getD _ _ (by decide) (by decide)]
      exact get_set_same _ _ _
    rw [meshBlockStep, hc, if_neg (by decide :
      ¬(BlockShape.Cube.get_occlusion.contains BlockOcclusion.INNER) = true)]
    have c1 : checkDir (Region.from_size ⟨-1, -1, -1⟩ ⟨18, 18, 18⟩) (((VoxelWorld.mkDefault BlockShape).set_block_data ⟨7, 7, 7⟩ BlockShape.Cube).get_block_region ((Region.from_size ⟨-1, -1, -1⟩ ⟨18, 18, 18⟩).min, (Region.from_size ⟨-1, -1, -1⟩ ⟨18, 18, 18⟩).max)) ⟨7, 7, 7⟩ ⟨-1, 0, 0⟩ BlockOcclusion.NEG_X BlockOcclusion.empty = BlockOcclusion.empty := by
      refine checkDir_skip _ _ _ _ _ _ ?_
      rw [show (⟨7, 7, 7⟩ : IVec3) + ⟨-1, 0, 0⟩ = ⟨6, 7, 7⟩ from by decide, halo_getD _ _ (by decide) (by decide), get_set_ne _ _ (by decide), get_mkDefault]
      decide
    have c2 : checkDir (Region.from_size ⟨-1, -1, -1⟩ ⟨18, 18, 18⟩) (((VoxelWorld.mkDefault BlockShape).set_block_data ⟨7, 7, 7⟩ BlockShape.Cube).get_block_region ((Region.from_size ⟨-1, -1, -1⟩ ⟨18, 18, 18⟩).min, (Region.from_size ⟨-1, -1, -1⟩ ⟨18, 18, 18⟩).max)) ⟨7, 7, 7⟩ ⟨1, 0, 0⟩ BlockOcclusion.POS_X BlockOcclusion.empty = BlockOcclusion.empty := by
      refine checkDir_skip _ _ _ _ _ _ ?_
      rw [show (⟨7, 7, 7⟩ : IVec3) + ⟨1, 0, 0⟩ = ⟨8, 7, 7⟩ from by decide, halo_getD _ _ (by decide) (by decide), get_set_ne _ _ (by decide), get_mkDefault]
      decide
    have c3 : checkDir (Region.from_size ⟨-1, -1, -1⟩ ⟨18, 18, 18⟩) (((VoxelWorld.mkDefault BlockShape).set_block_data ⟨7, 7, 7⟩ BlockShape.Cube).get_block_region ((Region.from_size ⟨-1, -1, -1⟩ ⟨18, 18, 18⟩).min, (Region.from_size ⟨-1, -1, -1⟩ ⟨18, 18, 18⟩).max)) ⟨7, 7, 7⟩ ⟨0, -1, 0⟩ BlockOcclusion.NEG_Y BlockOcclusion.empty = BlockOcclusion.empty := by
      refine checkDir_skip _ _ _ _ _ _ ?_
      rw [show (⟨7, 7, 7⟩ : IVec3) + ⟨0, -1, 0⟩ = ⟨7, 6, 7⟩ from by decide, halo_getD _ _ (by decide) (by decide), get_set_ne _ _ (by decide), get_mkDefault]
      decide
    have c4 : checkDir (Region.from_size ⟨-1, -1, -1⟩ ⟨18, 18, 18⟩) (((VoxelWorld.mkDefault BlockShape).set_block_data ⟨7, 7, 7⟩ BlockShape.Cube).get_block_region ((Region.from_size ⟨-1, -1, -1⟩ ⟨18, 18, 18⟩).min, (Region.from_size ⟨-1, -1, -1⟩ ⟨18, 18, 18⟩).max)) ⟨7, 7, 7⟩ ⟨0, 1, 0⟩ BlockOcclusion.POS_Y BlockOcclusion.empty = BlockOcclusion.empty := by
      refine checkDir_skip _ _ _ _ _ _ ?_
      rw [show (⟨7, 7, 7⟩ : IVec3) + ⟨0, 1, 0⟩ = ⟨7, 8, 7⟩ from by decide, halo_getD _ _ (by decide) (by decide), get_set_ne _ _ (by decide), get_mkDefault]
      decide
    have c5 : checkDir (Region.from_size ⟨-1, -1, -1⟩ ⟨18, 18, 18⟩) (((VoxelWorld.mkDefault BlockShape).set_block_data ⟨7, 7, 7⟩ BlockShape.Cube).get_block_region ((Region.from_size ⟨-1, -1, -1⟩ ⟨18, 18, 18⟩).min, (Region.from_size ⟨-1, -1, -1⟩ ⟨18, 18, 18⟩).max)) ⟨7, 7, 7⟩ ⟨0, 0, -1⟩ BlockOcclusion.NEG_Z BlockOcclusion.empty = BlockOcclusion.empty := by
      refine checkDir_skip _ _ _ _ _ _ ?_
      rw [show (⟨7, 7, 7⟩ : IVec3) + ⟨0, 0, -1⟩ = ⟨7, 7, 6⟩ from by decide, halo_getD _ _ (by decide) (by decide), get_set_ne _ _ (by decide), get_mkDefault]
      decide
    have c6 : checkDir (Region.from_size ⟨-1, -1, -1⟩ ⟨18, 18, 18⟩) (((VoxelWorld.mkDefault BlockShape).set_block_data ⟨7, 7, 7⟩ BlockShape.Cube).get_block_region ((Region.from_size ⟨-1, -1, -1⟩ ⟨18, 18, 18⟩).min, (Region.from_size ⟨-1, -1, -1⟩ ⟨18, 18, 18⟩).max)) ⟨7, 7, 7⟩ ⟨0, 0, 1⟩ BlockOcclusion.POS_Z BlockOcclusion.empty = BlockOcclusion.empty := by
      refine checkDir_skip _ _ _ _ _ _ ?_
      rw [show (⟨7, 7, 7⟩ : IVec3) + ⟨0, 0, 1⟩ = ⟨7, 7, 8⟩ from by decide, halo_getD _ _ (by decide) (by decide), get_set_ne _ _ (by decide), get_mkDefault]
      decide
    rw [c1, c2, c3, c4, c5, c6]
    rfl
  refine ⟨part1, ?_, ?_, ?_, ?_, ?_, ?_, ?_⟩
  · rw [part1]; decide
  · rw [part1]; decide
  · rw [part1]; decide
  · rw [part1]; decide
  · rw [part1]; decide
  · intro m
    have hc : (((((((((VoxelWorld.mkDefault BlockShape).set_block_data ⟨7, 7, 7⟩ BlockShape.Cube).set_block_data ⟨6, 7, 7⟩ BlockShape.Cube).set_block_data ⟨8, 7, 7⟩ BlockShape.Cube).set_block_data ⟨7, 6, 7⟩ BlockShape.Cube).set_block_data ⟨7, 8, 7⟩ BlockShape.Cube).set_block_data ⟨7, 7, 6⟩ BlockShape.Cube).set_block_data ⟨7, 7, 8⟩ BlockShape.Cube).get_block_region ((Region.from_size ⟨-1, -1, -1⟩ ⟨18, 18, 18⟩).min, (Region.from_size ⟨-1, -1, -1⟩ ⟨18, 18, 18⟩).max)).getD (((Region.from_size ⟨-1, -1, -1⟩ ⟨18, 18, 18⟩).point_to_index ⟨7, 7, 7⟩).getD 0) default = BlockShape.Cube := by
      rw [halo_getD _ _ (by decide) (by decide), get_set_ne _ _ (by decide), get_set_ne _ _ (by decide), get_set_ne _ _ (by decide), get_set_ne _ _ (by decide), get_set_ne _ _ (by decide), get_set_ne _ _ (by decide)]
      exact get_set_same _ _ _
    rw [meshBlockStep, hc, if_neg (by decide :
      ¬(BlockShape.Cube.get_occlusion.contains BlockOcclusion.INNER) = true)]
    have d1 : checkDir (Region.from_size ⟨-1, -1, -1⟩ ⟨18, 18, 18⟩) (((((((((VoxelWorld.mkDefault BlockShape).set_block_data ⟨7, 7, 7⟩ BlockShape.Cube).set_block_data ⟨6, 7, 7⟩ BlockShape.Cube).set_block_data ⟨8, 7, 7⟩ BlockShape.Cube).set_block_data ⟨7, 6, 7⟩ BlockShape.Cube).set_block_data ⟨7, 8, 7⟩ BlockShape.Cube).set_block_data ⟨7, 7, 6⟩ BlockShape.Cube).set_block_data ⟨7, 7, 8⟩ BlockShape.Cube).get_block_region ((Region.from_size ⟨-1, -1, -1⟩ ⟨18, 18, 18⟩).min, (Region.from_size ⟨-1, -1, -1⟩ ⟨18, 18, 18⟩).max)) ⟨7, 7, 7⟩ ⟨-1, 0, 0⟩ BlockOcclusion.NEG_X BlockOcclusion.empty = BlockOcclusion.empty.or BlockOcclusion.NEG_X := by
      refine checkDir_hit _ _ _ _ _ _ ?_
      rw [show (⟨7, 7, 7⟩ : IVec3) + ⟨-1, 0, 0⟩ = ⟨6, 7, 7⟩ from by decide, halo_getD _ _ (by decide) (by decide), get_set_ne _ _ (by decide), get_set_ne _ _ (by decide), get_set_ne _ _ (by decide), get_set_ne _ _ (by decide), get_set_ne _ _ (by decide), get_set_same]
      decide
    have d2 : checkDir (Region.from_size ⟨-1, -1, -1⟩ ⟨18, 18, 18⟩) (((((((((VoxelWorld.mkDefault BlockShape).set_block_data ⟨7, 7, 7⟩ BlockShape.Cube).set_block_data ⟨6, 7, 7⟩ BlockShape.Cube).set_block_data ⟨8, 7, 7⟩ BlockShape.Cube).set_block_data ⟨7, 6, 7⟩ BlockShape.Cube).set_block_data ⟨7, 8, 7⟩ BlockShape.Cube).set_block_data ⟨7, 7, 6⟩ BlockShape.Cube).set_block_data ⟨7, 7, 8⟩ BlockShape.Cube).get_block_region ((Region.from_size ⟨-1, -1, -1⟩ ⟨18, 18, 18⟩).min, (Region.from_size ⟨-1, -1, -1⟩ ⟨18, 18, 18⟩).max)) ⟨7, 7, 7⟩ ⟨1, 0, 0⟩ BlockOcclusion.POS_X (BlockOcclusion.empty.or BlockOcclusion.NEG_X) = (BlockOcclusion.empty.or BlockOcclusion.NEG_X).or BlockOcclusion.POS_X := by
      refine checkDir_hit _ _ _ _ _ _ ?_
      rw [show (⟨7, 7, 7⟩ : IVec3) + ⟨1, 0, 0⟩ = ⟨8, 7, 7⟩ from by decide, halo_getD _ _ (by decide) (by decide), get_set_ne _ _ (by decide), get_set_ne _ _ (by decide), get_set_ne _ _ (by decide), get_set_ne _ _ (by decide), get_set_same]
      decide
    have d3 : checkDir (Region.from_size ⟨-1, -1, -1⟩ ⟨18, 18, 18⟩) (((((((((VoxelWorld.mkDefault BlockShape).set_block_data ⟨7, 7, 7⟩ BlockShape.Cube).set_block_data ⟨6, 7, 7⟩ BlockShape.Cube).set_block_data ⟨8, 7, 7⟩ BlockShape.Cube).set_block_data ⟨7, 6, 7⟩ BlockShape.Cube).set_block_data ⟨7, 8, 7⟩ BlockShape.Cube).set_block_data ⟨7, 7, 6⟩ BlockShape.Cube).set_block_data ⟨7, 7, 8⟩ BlockShape.Cube).get_block_region ((Region.from_size ⟨-1, -1, -1⟩ ⟨18, 18, 18⟩).min, (Region.from_size ⟨-1, -1, -1⟩ ⟨18, 18, 18⟩).max)) ⟨7, 7, 7⟩ ⟨0, -1, 0⟩ BlockOcclusion.NEG_Y ((BlockOcclusion.empty.or BlockOcclusion.NEG_X).or BlockOcclusion.POS_X) = ((BlockOcclusion.empty.or BlockOcclusion.NEG_X).or BlockOcclusion.POS_X).or BlockOcclusion.NEG_Y := by
      refine checkDir_hit _ _ _ _ _ _ ?_
      rw [show (⟨7, 7, 7⟩ : IVec3) + ⟨0, -1, 0⟩ = ⟨7, 6, 7⟩ from by decide, halo_getD _ _ (by decide) (by decide), get_set_ne _ _ (by decide), get_set_ne _ _ (by decide), get_set_ne _ _ (by decide), get_set_same]
      decide
    have d4 : checkDir (Region.from_size ⟨-1, -1, -1⟩ ⟨18, 18, 18⟩) (((((((((VoxelWorld.mkDefault BlockShape).set_block_data ⟨7, 7, 7⟩ BlockShape.Cube).set_block_data ⟨6, 7, 7⟩ BlockShape.Cube).set_block_data ⟨8, 7, 7⟩ BlockShape.Cube).set_block_data ⟨7, 6, 7⟩ BlockShape.Cube).set_block_data ⟨7, 8, 7⟩ BlockShape.Cube).set_block_data ⟨7, 7, 6⟩ BlockShape.Cube).set_block_data ⟨7, 7, 8⟩ BlockShape.Cube).get_block_region ((Region.from_size ⟨-1, -1, -1⟩ ⟨18, 18, 18⟩).min, (Region.from_size ⟨-1, -1, -1⟩ ⟨18, 18, 18⟩).max)) ⟨7, 7, 7⟩ ⟨0, 1, 0⟩ BlockOcclusion.POS_Y (((BlockOcclusion.empty.or BlockOcclusion.NEG_X).or BlockOcclusion.POS_X).or BlockOcclusion.NEG_Y) = (((BlockOcclusion.empty.or BlockOcclusion.NEG_X).or BlockOcclusion.POS_X).or BlockOcclusion.NEG_Y).or BlockOcclusion.POS_Y := by
      refine checkDir_hit _ _ _ _ _ _ ?_
      rw [show (⟨7, 7, 7⟩ : IVec3) + ⟨0, 1, 0⟩ = ⟨7, 8, 7⟩ from by decide, halo_getD _ _ (by decide) (by decide), get_set_ne _ _ (by decide), get_set_ne _ _ (by decide), get_set_same]
      decide
    have d5 : checkDir (Region.from_size ⟨-1, -1, -1⟩ ⟨18, 18, 18⟩) (((((((((VoxelWorld.mkDefault BlockShape).set_block_data ⟨7, 7, 7⟩ BlockShape.Cube).set_block_data ⟨6, 7, 7⟩ BlockShape.Cube).set_block_data ⟨8, 7, 7⟩ BlockShape.Cube).set_block_data ⟨7, 6, 7⟩ BlockShape.Cube).set_block_data ⟨7, 8, 7⟩ BlockShape.Cube).set_block_data ⟨7, 7, 6⟩ BlockShape.Cube).set_block_data ⟨7, 7, 8⟩ BlockShape.Cube).get_block_region ((Region.from_size ⟨-1, -1, -1⟩ ⟨18, 18, 18⟩).min, (Region.from_size ⟨-1, -1, -1⟩ ⟨18, 18, 18⟩).max)) ⟨7, 7, 7⟩ ⟨0, 0, -1⟩ BlockOcclusion.NEG_Z ((((BlockOcclusion.empty.or BlockOcclusion.NEG_X).or BlockOcclusion.POS_X).or BlockOcclusion.NEG_Y).or BlockOcclusion.POS_Y) = ((((BlockOcclusion.empty.or BlockOcclusion.NEG_X).or BlockOcclusion.POS_X).or BlockOcclusion.NEG_Y).or BlockOcclusion.POS_Y).or BlockOcclusion.NEG_Z := by
      refine checkDir_hit _ _ _ _ _ _ ?_
      rw [show (⟨7, 7, 7⟩ : IVec3) + ⟨0, 0, -1⟩ = ⟨7, 7, 6⟩ from by decide, halo_getD _ _ (by decide) (by decide), get_set_ne _ _ (by decide), get_set_same]
      decide
    have d6 : checkDir (Region.from_size ⟨-1, -1, -1⟩ ⟨18, 18, 18⟩) (((((((((VoxelWorld.mkDefault BlockShape).set_block_data ⟨7, 7, 7⟩ BlockShape.Cube).set_block_data ⟨6, 7, 7⟩ BlockShape.Cube).set_block_data ⟨8, 7, 7⟩ BlockShape.Cube).set_block_data ⟨7, 6, 7⟩ BlockShape.Cube).set_block_data ⟨7, 8, 7⟩ BlockShape.Cube).set_block_data ⟨7, 7, 6⟩ BlockShape.Cube).set_block_data ⟨7, 7, 8⟩ BlockShape.Cube).get_block_region ((Region.from_size ⟨-1, -1, -1⟩ ⟨18, 18, 18⟩).min, (Region.from_size ⟨-1, -1, -1⟩ ⟨18, 18, 18⟩).max)) ⟨7, 7, 7⟩ ⟨0, 0, 1⟩ BlockOcclusion.POS_Z (((((BlockOcclusion.empty.or BlockOcclusion.NEG_X).or BlockOcclusion.POS_X).or BlockOcclusion.NEG_Y).or BlockOcclusion.POS_Y).or BlockOcclusion.NEG_Z) = (((((BlockOcclusion.empty.or BlockOcclusion.NEG_X).or BlockOcclusion.POS_X).or BlockOcclusion.NEG_Y).or BlockOcclusion.POS_Y).or BlockOcclusion.NEG_Z).or BlockOcclusion.POS_Z := by
      refine checkDir_hit _ _ _ _ _ _ ?_
      rw [show (⟨7, 7, 7⟩ : IVec3) + ⟨0, 0, 1⟩ = ⟨7, 7, 8⟩ from by decide, halo_getD _ _ (by decide) (by decide), get_set_same]
      decide
    rw [d1, d2, d3, d4, d5, d6]
    rfl
  · intro m p a b c d n h
    have h1 : m.vertices.length % 65536 = m.vertices.length :=
      Nat.mod_eq_of_lt (by omega)
    have h2 : (m.vertices.length % 65536 + 1) % 65536 = m.vertices.length + 1 := by
      omega
    have h3 : (m.vertices.length % 65536 + 2) % 65536 = m.vertices.length + 2 := by
      omega
    have h4 : (m.vertices.length % 65536 + 3) % 65536 = m.vertices.length + 3 := by
      omega
    show m.indices ++ _ = _
    rw [h2, h3, h4, h1]

theorem mesh_single_cube_face_culling_witness :
    ChunkMesher.mkDefault.vertices.length + 3 < 65536 ∧
      (pushQuad ChunkMesher.mkDefault ⟨0, 0, 0⟩ 0 1 3 2 ⟨-1, 0, 0⟩).indices =
        ChunkMesher.mkDefault.indices ++
          [ChunkMesher.mkDefault.vertices.length,
            ChunkMesher.mkDefault.vertices.length + 1,
            ChunkMesher.mkDefault.vertices.length + 2,
            ChunkMesher.mkDefault.vertices.length,
            ChunkMesher.mkDefault.vertices.length + 2,
            ChunkMesher.mkDefault.vertices.length + 3] :=
  ⟨by decide, mesh_single_cube_face_culling.2.2.2.2.2.2.2 ChunkMesher.mkDefault
    ⟨0, 0, 0⟩ 0 1 3 2 ⟨-1, 0, 0⟩ (by decide)⟩

/-! ## Payload chunks are not pruned on reset (claim C5)

`VoxelWorld::set_block_data` never removes a chunk or region: after filling
a chunk with non-default values and writing defaults back everywhere, the
chunk and its region are still stored (spec §9 itself records that the
reference `set_block_data` path does not prune). -/

theorem find_setInRegions_present_self {α : Type} [Inhabited α] (rc : IVec3)
    (ci bi : Nat) (v : α) (l : List (VoxelRegion α)) :
    (((setInRegions rc ci bi v l).find? fun r =>
        decide (r.region_coords = rc)).bind fun r => r.chunks ci).isSome = true := by
  induction l with
  | nil =>
    simp [setInRegions, List.find?, Function.update_same]
  | cons r rest ih =>
    by_cases h : r.region_coords = rc
    · rw [setInRegions, if_pos h]
      simp [List.find?_cons, h, Function.update_same]
    · rw [setInRegions, if_neg h]
      simpa [List.find?_cons, h] using ih

theorem chunkPresent_setInRegions {α : Type} [Inhabited α] (rc : IVec3)
    (ci bi : Nat) (v : α) (l : List (VoxelRegion α)) (rc' : IVec3) (ci' : Nat)
    (h : ((l.find? fun r => decide (r.region_coords = rc')).bind
        fun r => r.chunks ci').isSome = true) :
    (((setInRegions rc ci bi v l).find? fun r =>
        decide (r.region_coords = rc')).bind fun r => r.chunks ci').isSome = true := by
  induction l with
  | nil => simp [List.find?] at h
  | cons r rest ih =>
    by_cases hr : r.region_coords = rc
    · rw [setInRegions, if_pos hr]
      by_cases hr' : r.region_coords = rc'
      · rw [List.find?_cons_of_pos _ (by simp [hr'])] at h
        rw [List.find?_cons_of_pos _ (by simp [hr'])]
        simp only [Option.some_bind] at h ⊢
        by_cases hci : ci' = ci
        · subst hci
          simp [Function.update_same]
        · simpa [Function.update_noteq hci] using h
      · rw [List.find?_cons_of_neg _ (by simp [hr'])] at h
        rw [List.find?_cons_of_neg _ (by simp [hr'])]
        exact h
    · rw [setInRegions, if_neg hr]
      by_cases hr' : r.region_coords = rc'
      · rw [List.find?_cons_of_pos _ (by simp [hr'])] at h
        rw [List.find?_cons_of_pos _ (by simp [hr'])]
        exact h
      · rw [List.find?_cons_of_neg _ (by simp [hr'])] at h
        rw [List.find?_cons_of_neg _ (by simp [hr'])]
        exact ih h

theorem chunkPresent_set_self {α : Type} [Inhabited α] (w : VoxelWorld α)
    (p : IVec3) (v : α) :
    ((((w.set_block_data p v).regions.find? fun r =>
        decide (r.region_coords = blockRegionCoords p)).bind
      fun r => r.chunks (blockChunkIndex p)).isSome) = true :=
  find_setInRegions_present_self _ _ _ _ _

theorem chunkPresent_set_mono {α : Type} [Inhabited α] (w : VoxelWorld α)
    (p : IVec3) (v : α) (rc : IVec3) (ci : Nat)
    (h : ((w.regions.find? fun r => decide (r.region_coords = rc)).bind
        fun r => r.chunks ci).isSome = true) :
    ((((w.set_block_data p v).regions.find? fun r =>
        decide (r.region_coords = rc)).bind fun r => r.chunks ci).isSome) = true :=
  chunkPresent_setInRegions _ _ _ _ _ _ _ h

theorem chunkPresent_applyBlocks_mono {α : Type} [Inhabited α]
    (ops : List (IVec3 × α)) (w : VoxelWorld α) (rc : IVec3) (ci : Nat)
    (h : ((w.regions.find? fun r => decide (r.region_coords = rc)).bind
        fun r => r.chunks ci).isSome = true) :
    (((applyBlocks ops w).regions.find? fun r =>
        decide (r.region_coords = rc)).bind fun r => r.chunks ci).isSome = true := by
  induction ops generalizing w with
  | nil => exact h
  | cons op rest ih =>
    rw [applyBlocks_cons]
    exact ih _ (chunkPresent_set_mono _ _ _ _ _ h)

theorem chunkPresent_applyBlocks_of_mem {α : Type} [Inhabited α]
    (ops : List (IVec3 × α)) (w : VoxelWorld α) (p : IVec3) (v : α)
    (hmem : (p, v) ∈ ops) :
    (((applyBlocks ops w).regions.find? fun r =>
        decide (r.region_coords = blockRegionCoords p)).bind
      fun r => r.chunks (blockChunkIndex p)).isSome = true := by
  induction ops generalizing w with
  | nil => cases hmem
  | cons op rest ih =>
    rw [applyBlocks_cons]
    by_cases hpr : (p, v) ∈ rest
    · exact ih _ hpr
    · have hop : op = (p, v) := by
        rcases List.mem_cons.mp hmem with h | h
        · exact h.symm
        · exact absurd h hpr
      subst hop
      exact chunkPresent_applyBlocks_mono _ _ _ _ (chunkPresent_set_self _ _ _)

/-- The last value written at block position `q` by a list of block writes,
if any: later operations take precedence. -/
def lastBlockSet? {α : Type} (q : IVec3) : List (IVec3 × α) → Option α
  | [] => none
  | op :: rest =>
    match lastBlockSet? q rest with
    | some v => some v
    | none => if op.1 = q then some op.2 else none

theorem get_applyBlocks {α : Type} [Inhabited α] (ops : List (IVec3 × α))
    (w : VoxelWorld α) (q : IVec3) :
    (applyBlocks ops w).get_block_data q =
      (lastBlockSet? q ops).getD (w.get_block_data q) := by
  induction ops generalizing w with
  | nil => rfl
  | cons op rest ih =>
    rw [applyBlocks_cons, ih (w.set_block_data op.1 op.2)]
    by_cases hop : op.1 = q
    · subst hop
      rw [get_set_same]
      rcases hl : lastBlockSet? op.1 rest with _ | v <;>
        simp [lastBlockSet?, hl]
    · rw [get_set_ne _ _ hop]
      rcases hl : lastBlockSet? q rest with _ | v <;>
        simp [lastBlockSet?, hl, hop]

theorem lastBlockSet?_append {α : Type} (q : IVec3) (l1 l2 : List (IVec3 × α)) :
    lastBlockSet? q (l1 ++ l2) =
      match lastBlockSet? q l2 with
      | some v => some v
      | none => lastBlockSet? q l1 := by
  induction l1 with
  | nil =>
    simp only [List.nil_append]
    cases hl : lastBlockSet? q l2 <;> simp [hl, lastBlockSet?]
  | cons op rest ih =>
    rw [List.cons_append, lastBlockSet?, ih, lastBlockSet?]
    cases hl : lastBlockSet? q l2 <;> cases hr : lastBlockSet? q rest <;> simp

theorem lastBlockSet?_map_const {α : Type} (q : IVec3) (l : List IVec3) (v : α) :
    lastBlockSet? q (l.map fun p => (p, v)) = if q ∈ l then some v else none := by
  induction l with
  | nil => rfl
  | cons a t ih =>
    rw [List.map_cons, lastBlockSet?, ih]
    by_cases hq : q ∈ t
    · simp [hq, List.mem_cons]
    · simp only [hq, if_false]
      by_cases ha : a = q
      · subst ha
        simp [hq, List.mem_cons]
      · rw [if_neg ha, if_neg]
        intro h
        rcases List.mem_cons.mp h with h | h
        · exact ha h.symm
        · exact hq h

/-- C5 counterexample: on a fresh world, set every block of chunk `(0,0,0)`
to `1` and then set every block back to the default `0`; the chunk is still
present in internal storage (and hence so is its region), contradicting the
claim that it is pruned. -/
theorem sparse_minimality_counterexample :
    (((applyBlocks
            (((cuboidPoints ⟨0, 0, 0⟩ ⟨15, 15, 15⟩).map fun p => (p, 1)) ++
              ((cuboidPoints ⟨0, 0, 0⟩ ⟨15, 15, 15⟩).map fun p => (p, 0)))
            (VoxelWorld.mkDefault Nat)).regions.find? fun r =>
          decide (r.region_coords = ⟨0, 0, 0⟩)).bind
        fun r => r.chunks 0).isSome = true := by
  have hmem : ((⟨0, 0, 0⟩ : IVec3), (0 : Nat)) ∈
      ((cuboidPoints ⟨0, 0, 0⟩ ⟨15, 15, 15⟩).map fun p => (p, 1)) ++
        ((cuboidPoints ⟨0, 0, 0⟩ ⟨15, 15, 15⟩).map fun p => (p, 0)) := by
    refine List.mem_append_right _ (List.mem_map.mpr ⟨⟨0, 0, 0⟩, ?_, rfl⟩)
    exact mem_cuboidPoints.mpr ⟨by decide, by decide⟩
  have h := chunkPresent_applyBlocks_of_mem _ (VoxelWorld.mkDefault Nat)
    ⟨0, 0, 0⟩ 0 hmem
  rw [show blockRegionCoords ⟨0, 0, 0⟩ = ⟨0, 0, 0⟩ from by decide,
    show blockChunkIndex ⟨0, 0, 0⟩ = 0 from by decide] at h
  exact h

/-- C5 amended: for every voxel world, after setting every block of a chunk
to a value and then setting every block of that chunk back to the payload
default via `set_block_data`, the chunk remains present in internal storage
(`set_block_data` never prunes chunks or regions), while every block of the
chunk reads back as the default. -/
theorem chunk_remains_after_reset {α : Type} [Inhabited α] (w : VoxelWorld α)
    (c : IVec3) (v : α) :
    (((applyBlocks
            (((cuboidPoints c.shl4 (c.shl4 + IVec3.splat 15)).map fun p => (p, v)) ++
              ((cuboidPoints c.shl4 (c.shl4 + IVec3.splat 15)).map fun p =>
                (p, (default : α))))
            w).regions.find? fun r =>
          decide (r.region_coords = blockRegionCoords c.shl4)).bind
        fun r => r.chunks (blockChunkIndex c.shl4)).isSome = true ∧
      ∀ p ∈ cuboidPoints c.shl4 (c.shl4 + IVec3.splat 15),
        (applyBlocks
            (((cuboidPoints c.shl4 (c.shl4 + IVec3.splat 15)).map fun p => (p, v)) ++
              ((cuboidPoints c.shl4 (c.shl4 + IVec3.splat 15)).map fun p =>
                (p, (default : α))))
            w).get_block_data p = default := by
  constructor
  · refine chunkPresent_applyBlocks_of_mem _ w c.shl4 default ?_
    refine List.mem_append_right _ (List.mem_map.mpr ⟨c.shl4, ?_, rfl⟩)
    refine mem_cuboidPoints.mpr ⟨?_, ?_⟩
    · rw [IVec3.le_def]
      exact ⟨le_refl _, le_refl _, le_refl _⟩
    · rw [IVec3.le_def]
      simp only [IVec3.splat, IVec3.add_def]
      refine ⟨?_, ?_, ?_⟩ <;> omega
  · intro p hp
    rw [get_applyBlocks, lastBlockSet?_append, lastBlockSet?_map_const,
      lastBlockSet?_map_const, if_pos hp]
    rfl

theorem chunk_remains_after_reset_witness :
    (((applyBlocks
            (((cuboidPoints (⟨0, 0, 0⟩ : IVec3).shl4
                  ((⟨0, 0, 0⟩ : IVec3).shl4 + IVec3.splat 15)).map fun p => (p, 1)) ++
              ((cuboidPoints (⟨0, 0, 0⟩ : IVec3).shl4
                  ((⟨0, 0, 0⟩ : IVec3).shl4 + IVec3.splat 15)).map fun p =>
                (p, (default : Nat))))
            (VoxelWorld.mkDefault Nat)).regions.find? fun r =>
          decide (r.region_coords = blockRegionCoords (⟨0, 0, 0⟩ : IVec3).shl4)).bind
        fun r => r.chunks (blockChunkIndex (⟨0, 0, 0⟩ : IVec3).shl4)).isSome = true ∧
      ((⟨0, 0, 0⟩ : IVec3) ∈ cuboidPoints (⟨0, 0, 0⟩ : IVec3).shl4
          ((⟨0, 0, 0⟩ : IVec3).shl4 + IVec3.splat 15)) ∧
      (applyBlocks
          (((cuboidPoints (⟨0, 0, 0⟩ : IVec3).shl4
                ((⟨0, 0, 0⟩ : IVec3).shl4 + IVec3.splat 15)).map fun p => (p, 1)) ++
            ((cuboidPoints (⟨0, 0, 0⟩ : IVec3).shl4
                ((⟨0, 0, 0⟩ : IVec3).shl4 + IVec3.splat 15)).map fun p =>
              (p, (default : Nat))))
          (VoxelWorld.mkDefault Nat)).get_block_data ⟨0, 0, 0⟩ = default :=
  ⟨(chunk_remains_after_reset (VoxelWorld.mkDefault Nat) ⟨0, 0, 0⟩ 1).1,
    mem_cuboidPoints.mpr ⟨by decide, by decide⟩,
    (chunk_remains_after_reset (VoxelWorld.mkDefault Nat) ⟨0, 0, 0⟩ 1).2 ⟨0, 0, 0⟩
      (mem_cuboidPoints.mpr ⟨by decide, by decide⟩)⟩
